import Mathlib

/-!
Verification development for the `faketree` unprivileged container launcher.

Strings are modelled as `List Char` (`Str`). Go standard-library helpers used
by the program (`strings.Split`, `strings.SplitN`, `strings.TrimSpace`,
`strings.TrimPrefix`, `strings.Join`, `strconv.Atoi`, ...) are embedded as
executable Lean functions on `Str`. `strings.TrimSpace` is modelled on the
ASCII whitespace characters (the Unicode-only additions U+0085/U+00A0 play no
role in any statement below).
-/

namespace Faketree

abbrev Str := List Char

/-- ASCII part of Go's `unicode.IsSpace`. -/
def isGoSpace (c : Char) : Bool :=
  c = ' ' || c = '\t' || c = '\n' || c = '\x0b' || c = '\x0c' || c = '\r'

/-- Right trim: drop trailing whitespace. -/
def rtrim (s : Str) : Str := (s.reverse.dropWhile isGoSpace).reverse

/-- Go `strings.TrimSpace` (ASCII whitespace). -/
def trimSpace (s : Str) : Str := rtrim (s.dropWhile isGoSpace)

/-- Go `strings.Split(s, sep)` for a single-character separator. -/
def goSplit (c : Char) (s : Str) : List Str := s.splitOn c

/-- Go `strings.Join(xs, sep)` for a single-character separator. -/
def goJoin (c : Char) (xs : List Str) : Str := [c].intercalate xs

/-- Go `strings.SplitN(s, sep, 3)` for a single-character separator:
split at the first two occurrences, the final piece keeps the rest. -/
def goSplitN3 (c : Char) (s : Str) : List Str :=
  match s.splitOn c with
  | [] => [s]
  | [a] => [a]
  | [a, b] => [a, b]
  | a :: b :: rest => [a, b, goJoin c rest]

/-! ### Mount flag constants (`syscall.MS_*`, Linux values) -/

def MS_RDONLY : Nat := 1
def MS_NOSUID : Nat := 2
def MS_NODEV : Nat := 4
def MS_NOEXEC : Nat := 8
def MS_SYNCHRONOUS : Nat := 16
def MS_REMOUNT : Nat := 32
def MS_MANDLOCK : Nat := 64
def MS_DIRSYNC : Nat := 128
def MS_NOATIME : Nat := 1024
def MS_NODIRATIME : Nat := 2048
def MS_BIND : Nat := 4096
def MS_MOVE : Nat := 8192
def MS_REC : Nat := 16384
def MS_SILENT : Nat := 32768
def MS_UNBINDABLE : Nat := 131072
def MS_PRIVATE : Nat := 262144
def MS_SLAVE : Nat := 524288
def MS_SHARED : Nat := 1048576
def MS_RELATIME : Nat := 2097152
def MS_STRICTATIME : Nat := 16777216

/-- The `MountFlags` struct of the launcher. -/
structure MountFlags where
  Source : Str
  Target : Str
  Flags : Nat
  Fstype : Str
  Data : Str
deriving DecidableEq

/-- The `KnownOptions` table: mount option name, `MS_*` value (source order). -/
def KnownOptions : List (Str × Nat) :=
  [("dirsync".toList, MS_DIRSYNC),
   ("mandlock".toList, MS_MANDLOCK),
   ("noatime".toList, MS_NOATIME),
   ("nodev".toList, MS_NODEV),
   ("nodiratime".toList, MS_NODIRATIME),
   ("noexec".toList, MS_NOEXEC),
   ("nosuid".toList, MS_NOSUID),
   ("ro".toList, MS_RDONLY),
   ("recursive".toList, MS_REC),
   ("relatime".toList, MS_RELATIME),
   ("silent".toList, MS_SILENT),
   ("strictatime".toList, MS_STRICTATIME),
   ("sync".toList, MS_SYNCHRONOUS),
   ("remount".toList, MS_REMOUNT),
   ("bind".toList, MS_BIND),
   ("shared".toList, MS_SHARED),
   ("private".toList, MS_PRIVATE),
   ("slave".toList, MS_SLAVE),
   ("unbindable".toList, MS_UNBINDABLE),
   ("move".toList, MS_MOVE)]

def DefaultMountFlags : Nat := MS_BIND ||| MS_REC ||| MS_PRIVATE

/-- `MountOptions.Find`: first table entry with the given name (value only). -/
def findOption (f : Str) : Option Nat :=
  (KnownOptions.find? (fun o => o.1 = f)).map (·.2)

def typeEq : Str := "type=".toList
def dataEq : Str := "data=".toList

/-- The loop body of `MountOptions.Parse`: walk the comma-split fields,
accumulating flag bits, the latest `type=`, and structured errors
`(index, trimmed token)`; the first `data=` token swallows the remaining raw
fields. -/
def parseGo (fl : Nat) (ft : Str) (errs : List (Nat × Str)) (ix : Nat) :
    List Str → Nat × Str × Str × List (Nat × Str)
  | [] => (fl, ft, [], errs)
  | f :: rest =>
    if typeEq.isPrefixOf (trimSpace f) then
      parseGo fl ((trimSpace f).drop 5) errs (ix + 1) rest
    else if dataEq.isPrefixOf (trimSpace f) then
      (fl, ft, goJoin ',' ((trimSpace f).drop 5 :: rest), errs)
    else
      match findOption (trimSpace f) with
      | some v => parseGo (fl ||| v) ft errs (ix + 1) rest
      | none => parseGo fl ft (errs ++ [(ix, trimSpace f)]) (ix + 1) rest

/-- `MountOptions.Parse` on the `KnownOptions` table: returns
(flags, fstype, data, structured errors). -/
def optionsParse (options : Str) : Nat × Str × Str × List (Nat × Str) :=
  parseGo 0 [] [] 0 (goSplit ',' options)

/-- `MountOptions.Serialize`: emit flag names (elided when the flag word
equals `DefaultMountFlags`), then `type=`, then `data=`, comma-joined. -/
def optionsSerialize (flags : Nat) (fstype fsdata : Str) : Str :=
  let options : List Str :=
    if flags ≠ DefaultMountFlags then
      (KnownOptions.filter (fun o => flags &&& o.2 > 0)).map (·.1)
    else []
  let options := options ++ (if fstype ≠ [] then [typeEq ++ fstype] else [])
  let options := options ++ (if fsdata ≠ [] then [dataEq ++ fsdata] else [])
  goJoin ',' options

/-- `NewMountFlags`: parse a textual mount spec `source:target[:options]`.
`multierror.New` (a repo helper outside the sources given here) returns a
non-nil error exactly when the error list is non-empty, so a spec is accepted
iff the option parse produced no structured errors. -/
def NewMountFlags (mount : Str) : Option MountFlags :=
  match goSplitN3 ':' mount with
  | [a, b] => some ⟨a, b, DefaultMountFlags, [], []⟩
  | [a, b, opts] =>
    let r := optionsParse opts
    if r.2.2.2 = [] then some ⟨a, b, r.1, r.2.1, r.2.2.1⟩ else none
  | _ => none

/-- `MountFlags.String`: `source:target` plus `:options` when the serialized
options are non-empty. -/
def mountString (mf : MountFlags) : Str :=
  let options := optionsSerialize mf.Flags mf.Fstype mf.Data
  mf.Source ++ ':' :: mf.Target ++ (if options ≠ [] then ':' :: options else [])

/-! ### Generic lemmas about the comma-split and joins -/

lemma splitOn_append_cons (c : Char) (x ys : Str) (h : c ∉ x) :
    (x ++ c :: ys).splitOn c = x :: ys.splitOn c := by
  unfold List.splitOn
  exact List.splitOnP_first _ x (by simpa using fun a ha hb => h (by simpa [hb] using ha))
    c (by simp) ys

lemma goJoin_cons_of_ne_nil {c : Char} (g : Str) (l : List Str) (hl : l ≠ []) :
    goJoin c (g :: l) = g ++ c :: goJoin c l := by
  cases l with
  | nil => exact absurd rfl hl
  | cons a l' => simp [goJoin, List.intercalate, List.intersperse]

lemma goJoin_singleton {c : Char} (x : Str) : goJoin c [x] = x := by
  simp [goJoin, List.intercalate]

lemma goJoin_splitOn (c : Char) (s : Str) : goJoin c (s.splitOn c) = s :=
  List.intercalate_splitOn s c

lemma splitOn_ne_nil (c : Char) (s : Str) : s.splitOn c ≠ [] :=
  List.splitOnP_ne_nil _ s

lemma splitOn_goJoin_append_cons (c : Char) (pre : List Str) (x t : Str)
    (hpre : ∀ g ∈ pre, c ∉ g) (hx : c ∉ x) :
    (goJoin c (pre ++ [x]) ++ c :: t).splitOn c = pre ++ x :: t.splitOn c := by
  induction pre with
  | nil => simpa [goJoin_singleton] using splitOn_append_cons c x t hx
  | cons g pre ih =>
    rw [List.cons_append, goJoin_cons_of_ne_nil g (pre ++ [x]) (by simp),
      List.append_assoc, List.cons_append]
    rw [splitOn_append_cons c g _ (hpre g (by simp))]
    rw [ih (fun g hg => hpre g (by simp [hg]))]
    rfl

lemma splitOn_goJoin (c : Char) (pre : List Str) (x : Str)
    (hpre : ∀ g ∈ pre, c ∉ g) (hx : c ∉ x) :
    (goJoin c (pre ++ [x])).splitOn c = pre ++ [x] := by
  refine List.splitOn_intercalate (pre ++ [x]) c ?_ (by simp)
  intro l hl
  rcases List.mem_append.mp hl with h | h
  · exact hpre l h
  · simpa [List.mem_singleton.mp h] using hx

/-- The pieces produced by a split never contain the separator. -/
lemma not_mem_of_mem_splitOn {c : Char} {s l : Str} (h : l ∈ s.splitOn c) : c ∉ l := by
  unfold List.splitOn at h
  induction s generalizing l with
  | nil => simp at h; simp [h]
  | cons a s ih =>
    rw [List.splitOnP_cons] at h
    by_cases hac : a = c
    · simp [hac] at h
      rcases h with h | h
      · simp [h]
      · exact ih h
    · simp [hac] at h
      rcases hs : List.splitOnP (· == c) s with _ | ⟨h₀, tl⟩
      · exact absurd hs (List.splitOnP_ne_nil _ s)
      · rw [hs] at h
        simp [List.modifyHead] at h
        rcases h with h | h
        · subst h
          intro hmem
          rcases List.mem_cons.mp hmem with h | h
          · exact hac h.symm
          · exact ih (l := h₀) (by simp [hs]) h
        · exact ih (by simp [hs, h])

/-! ### Lemmas about the option-parse loop -/

/-- The flag/fstype/data components of the parse loop do not depend on the
error accumulator or the field index. -/
lemma parseGo_comp_indep (l : List Str) : ∀ fl ft errs₁ ix₁ errs₂ ix₂,
    ((parseGo fl ft errs₁ ix₁ l).1 = (parseGo fl ft errs₂ ix₂ l).1
      ∧ (parseGo fl ft errs₁ ix₁ l).2.1 = (parseGo fl ft errs₂ ix₂ l).2.1
      ∧ (parseGo fl ft errs₁ ix₁ l).2.2.1 = (parseGo fl ft errs₂ ix₂ l).2.2.1) := by
  induction l with
  | nil => intro fl ft e₁ i₁ e₂ i₂; simp [parseGo]
  | cons f rest ih =>
    intro fl ft e₁ i₁ e₂ i₂
    simp only [parseGo]
    split
    · exact ih _ _ _ _ _ _
    · split
      · simp
      · rcases h : findOption (trimSpace f) with _ | v <;> simp only [h] <;> exact ih _ _ _ _ _ _

/-- Errors already accumulated stay in the final error list. -/
lemma parseGo_errs_mono (l : List Str) : ∀ fl ft errs ix e, e ∈ errs →
    e ∈ (parseGo fl ft errs ix l).2.2.2 := by
  induction l with
  | nil => intro fl ft errs ix e he; simpa [parseGo] using he
  | cons f rest ih =>
    intro fl ft errs ix e he
    simp only [parseGo]
    split
    · exact ih _ _ _ _ _ he
    · split
      · simpa using he
      · rcases h : findOption (trimSpace f) with _ | v <;> simp only [h]
        · exact ih _ _ _ _ _ (by simp [he])
        · exact ih _ _ _ _ _ he

lemma typeEq_not_prefix_dataEq (s : Str) : ¬ typeEq.isPrefixOf (dataEq ++ s) := by
  simp [typeEq, dataEq, List.isPrefixOf]

lemma dataEq_prefix_append (s : Str) : dataEq.isPrefixOf (dataEq ++ s) := by
  rw [List.isPrefixOf_iff_prefix]
  exact List.prefix_append _ _

lemma dataEq_append_drop (s : Str) : (dataEq ++ s).drop 5 = s :=
  List.drop_left dataEq s

lemma comma_not_mem_dataEq_append {s : Str} (h : (',' : Char) ∉ s) :
    (',' : Char) ∉ dataEq ++ s := by
  intro hmem
  rcases List.mem_append.mp hmem with h' | h'
  · simp [dataEq] at h'
  · exact h h'

/-- Parsing a field list whose suffix starts at a (trim-stable) `data=` token:
the flag and fstype components come from the preceding fields alone, and the
data component is the comma-join of the `data=` payload with all raw
remaining fields. -/
lemma parseGo_data (d : Str) (hd : trimSpace (dataEq ++ d) = dataEq ++ d) :
    ∀ (pre rest : List Str) (fl : Nat) (ft : Str) (errs : List (Nat × Str)) (ix : Nat),
    (∀ g ∈ pre, ¬ dataEq.isPrefixOf (trimSpace g)) →
    (parseGo fl ft errs ix (pre ++ (dataEq ++ d) :: rest)).1 = (parseGo fl ft errs ix pre).1
    ∧ (parseGo fl ft errs ix (pre ++ (dataEq ++ d) :: rest)).2.1
        = (parseGo fl ft errs ix pre).2.1
    ∧ (parseGo fl ft errs ix (pre ++ (dataEq ++ d) :: rest)).2.2.1
        = goJoin ',' (d :: rest) := by
  intro pre
  induction pre with
  | nil =>
    intro rest fl ft errs ix _
    simp only [List.nil_append, parseGo, hd]
    rw [if_neg (typeEq_not_prefix_dataEq d), if_pos (dataEq_prefix_append d)]
    simp [dataEq_append_drop, parseGo]
  | cons g pre ih =>
    intro rest fl ft errs ix hpre
    have hg : ¬ dataEq.isPrefixOf (trimSpace g) := hpre g (by simp)
    have hpre' : ∀ x ∈ pre, ¬ dataEq.isPrefixOf (trimSpace x) :=
      fun x hx => hpre x (by simp [hx])
    by_cases h₁ : typeEq.isPrefixOf (trimSpace g) = true
    · simp only [List.cons_append, parseGo, if_pos h₁]
      exact ih rest _ _ _ _ hpre'
    · simp only [List.cons_append, parseGo, if_neg h₁, if_neg hg]
      rcases h : findOption (trimSpace g) with _ | v <;> simp only [h]
      · exact ih rest _ _ _ _ hpre'
      · exact ih rest _ _ _ _ hpre'

/-- When an append list is joined, the last piece is a suffix of the join. -/
lemma goJoin_append_singleton_suffix (c : Char) (pre : List Str) (x : Str) :
    ∃ p, goJoin c (pre ++ [x]) = p ++ x := by
  induction pre with
  | nil => exact ⟨[], by simp [goJoin_singleton]⟩
  | cons g pre ih =>
    rcases ih with ⟨p, hp⟩
    exact ⟨g ++ c :: p, by
      rw [List.cons_append, goJoin_cons_of_ne_nil g (pre ++ [x]) (by simp), hp]
      simp⟩

/-- C6 (amended): for an options string whose token stream reaches a
(trim-stable, comma-free) `data=` token, the parsed `data` field is the whole
remainder of the options string after that `data=` — including any commas —
and no later token contributes to the flags or fstype components, which are
computed from the preceding tokens alone. (As literally stated the claim
fails: `trimSpace` removes trailing whitespace from the first comma-piece of
the payload, see the counterexample.) -/
theorem c6_data_greediness (pre : List Str) (d rest : Str)
    (hpre : ∀ g ∈ pre, (',' : Char) ∉ g ∧ ¬ dataEq.isPrefixOf (trimSpace g))
    (hd₁ : (',' : Char) ∉ d)
    (hd₂ : trimSpace (dataEq ++ d) = dataEq ++ d)
    (hrest : rest = [] ∨ ∃ u, rest = ',' :: u) :
    (optionsParse (goJoin ',' (pre ++ [dataEq ++ d]) ++ rest)).2.2.1 = d ++ rest
    ∧ (∃ p, goJoin ',' (pre ++ [dataEq ++ d]) ++ rest
        = p ++ dataEq ++ (optionsParse (goJoin ',' (pre ++ [dataEq ++ d]) ++ rest)).2.2.1)
    ∧ (optionsParse (goJoin ',' (pre ++ [dataEq ++ d]) ++ rest)).1
        = (parseGo 0 [] [] 0 pre).1
    ∧ (optionsParse (goJoin ',' (pre ++ [dataEq ++ d]) ++ rest)).2.1
        = (parseGo 0 [] [] 0 pre).2.1 := by
  have hxc : (',' : Char) ∉ dataEq ++ d := comma_not_mem_dataEq_append hd₁
  have hprec : ∀ g ∈ pre, (',' : Char) ∉ g := fun g hg => (hpre g hg).1
  have hpred : ∀ g ∈ pre, ¬ dataEq.isPrefixOf (trimSpace g) := fun g hg => (hpre g hg).2
  have hfields : (goJoin ',' (pre ++ [dataEq ++ d]) ++ rest).splitOn ','
      = pre ++ (dataEq ++ d ++ rest.takeWhile (fun _ => false)) ::
          (if rest = [] then ([] : List Str) else rest.tail.splitOn ',') := by
    rcases hrest with h | ⟨u, h⟩
    · subst h
      simpa using splitOn_goJoin ',' pre (dataEq ++ d) hprec hxc
    · subst h
      simpa using splitOn_goJoin_append_cons ',' pre (dataEq ++ d) u hprec hxc
  rcases hrest with h | ⟨u, h⟩
  · subst h
    have hfields' : (goJoin ',' (pre ++ [dataEq ++ d])).splitOn ',' = pre ++ [dataEq ++ d] :=
      splitOn_goJoin ',' pre (dataEq ++ d) hprec hxc
    have hmain := parseGo_data d hd₂ pre [] 0 [] [] 0 hpred
    have hparse : optionsParse (goJoin ',' (pre ++ [dataEq ++ d]) ++ [])
        = parseGo 0 [] [] 0 (pre ++ (dataEq ++ d) :: []) := by
      simp only [List.append_nil, optionsParse, goSplit, hfields']
    refine ⟨?_, ?_, ?_, ?_⟩
    · rw [hparse, hmain.2.2, goJoin_singleton]; simp
    · rcases goJoin_append_singleton_suffix ',' pre (dataEq ++ d) with ⟨p, hp⟩
      refine ⟨p, ?_⟩
      rw [hparse, hmain.2.2, goJoin_singleton]
      simp [hp]
    · rw [hparse]; exact hmain.1
    · rw [hparse]; exact hmain.2.1
  · subst h
    have hfields' : (goJoin ',' (pre ++ [dataEq ++ d]) ++ ',' :: u).splitOn ','
        = pre ++ (dataEq ++ d) :: u.splitOn ',' :=
      splitOn_goJoin_append_cons ',' pre (dataEq ++ d) u hprec hxc
    have hmain := parseGo_data d hd₂ pre (u.splitOn ',') 0 [] [] 0 hpred
    have hparse : optionsParse (goJoin ',' (pre ++ [dataEq ++ d]) ++ ',' :: u)
        = parseGo 0 [] [] 0 (pre ++ (dataEq ++ d) :: u.splitOn ',') := by
      simp only [optionsParse, goSplit, hfields']
    have hdata : goJoin ',' (d :: u.splitOn ',') = d ++ ',' :: u := by
      rw [goJoin_cons_of_ne_nil d (u.splitOn ',') (splitOn_ne_nil ',' u),
        goJoin_splitOn ',' u]
    refine ⟨?_, ?_, ?_, ?_⟩
    · rw [hparse, hmain.2.2, hdata]
    · rcases goJoin_append_singleton_suffix ',' pre (dataEq ++ d) with ⟨p, hp⟩
      refine ⟨p, ?_⟩
      rw [hparse, hmain.2.2, hdata, hp]
      simp
    · rw [hparse]; exact hmain.1
    · rw [hparse]; exact hmain.2.1

/-- C6 counterexample: in `"data=x ,y"` the remainder of the options string
after the first `data=` is `"x ,y"`, but the parsed data field is `"x,y"` —
the trailing space of the first comma-piece is trimmed away, so the claim as
literally stated is false. -/
theorem c6_counterexample :
    "data=x ,y".toList = dataEq ++ "x ,y".toList
    ∧ (optionsParse "data=x ,y".toList).2.2.1 = "x,y".toList
    ∧ "x,y".toList ≠ "x ,y".toList := by decide

/-- C6 witness: a concrete instance of the amended statement, at
options = `"ro,data=x,y"`. -/
theorem c6_data_greediness_witness :
    (optionsParse (goJoin ',' (["ro".toList] ++ [dataEq ++ "x".toList]) ++ ",y".toList)).2.2.1
      = "x".toList ++ ",y".toList
    ∧ (∃ p, goJoin ',' (["ro".toList] ++ [dataEq ++ "x".toList]) ++ ",y".toList
        = p ++ dataEq ++ (optionsParse (goJoin ','
            (["ro".toList] ++ [dataEq ++ "x".toList]) ++ ",y".toList)).2.2.1)
    ∧ (optionsParse (goJoin ',' (["ro".toList] ++ [dataEq ++ "x".toList]) ++ ",y".toList)).1
        = (parseGo 0 [] [] 0 ["ro".toList]).1
    ∧ (optionsParse (goJoin ',' (["ro".toList] ++ [dataEq ++ "x".toList]) ++ ",y".toList)).2.1
        = (parseGo 0 [] [] 0 ["ro".toList]).2.1 :=
  c6_data_greediness ["ro".toList] "x".toList ",y".toList (by decide) (by decide) (by decide)
    (Or.inr ⟨"y".toList, by decide⟩)

/-- C7: serializing a `MountFlags` whose flag word equals
`MS_BIND|MS_REC|MS_PRIVATE` and whose fstype and data are empty yields
exactly `source:target`, with no flag tokens and no trailing colon; and in
general, when the flag word equals the default, the serialized options
consist only of the `type=`/`data=` tokens. -/
theorem c7_default_flags_elision :
    ∀ s t : Str, mountString ⟨s, t, DefaultMountFlags, [], []⟩ = s ++ ':' :: t
    ∧ ∀ ft da : Str, optionsSerialize DefaultMountFlags ft da =
        goJoin ',' ((if ft ≠ [] then [typeEq ++ ft] else [])
          ++ (if da ≠ [] then [dataEq ++ da] else [])) := by
  intro s t
  constructor
  · simp [mountString, optionsSerialize, goJoin, List.intercalate]
  · intro ft da
    simp [optionsSerialize]

/-- Reaching an unknown token (before any `data=` token): the structured
error `(index, token)` is recorded and the flag/fstype/data components are
those of the field list with the unknown token removed. -/
lemma parseGo_unknown (f : Str)
    (hft : ¬ typeEq.isPrefixOf (trimSpace f))
    (hfd : ¬ dataEq.isPrefixOf (trimSpace f))
    (hfu : findOption (trimSpace f) = none) :
    ∀ (pre post : List Str) (fl : Nat) (ft : Str) (errs : List (Nat × Str)) (ix : Nat),
    (∀ g ∈ pre, ¬ dataEq.isPrefixOf (trimSpace g)) →
    (ix + pre.length, trimSpace f) ∈ (parseGo fl ft errs ix (pre ++ f :: post)).2.2.2
    ∧ (parseGo fl ft errs ix (pre ++ f :: post)).1 = (parseGo fl ft errs ix (pre ++ post)).1
    ∧ (parseGo fl ft errs ix (pre ++ f :: post)).2.1
        = (parseGo fl ft errs ix (pre ++ post)).2.1
    ∧ (parseGo fl ft errs ix (pre ++ f :: post)).2.2.1
        = (parseGo fl ft errs ix (pre ++ post)).2.2.1 := by
  intro pre
  induction pre with
  | nil =>
    intro post fl ft errs ix _
    simp only [List.nil_append, parseGo, if_neg hft, if_neg hfd, hfu]
    refine ⟨parseGo_errs_mono post _ _ _ _ _ (by simp), ?_, ?_, ?_⟩
    · exact (parseGo_comp_indep post fl ft (errs ++ [(ix, trimSpace f)]) (ix + 1) errs ix).1
    · exact (parseGo_comp_indep post fl ft (errs ++ [(ix, trimSpace f)]) (ix + 1) errs ix).2.1
    · exact (parseGo_comp_indep post fl ft (errs ++ [(ix, trimSpace f)]) (ix + 1) errs ix).2.2
  | cons g pre ih =>
    intro post fl ft errs ix hpre
    have hg : ¬ dataEq.isPrefixOf (trimSpace g) := hpre g (by simp)
    have hpre' : ∀ x ∈ pre, ¬ dataEq.isPrefixOf (trimSpace x) :=
      fun x hx => hpre x (by simp [hx])
    have harith : ix + (g :: pre).length = (ix + 1) + pre.length := by
      simp [List.length_cons]; omega
    rw [harith]
    by_cases h₁ : typeEq.isPrefixOf (trimSpace g) = true
    · simp only [List.cons_append, parseGo, if_pos h₁]
      exact ih post _ _ _ _ hpre'
    · simp only [List.cons_append, parseGo, if_neg h₁, if_neg hg]
      rcases h : findOption (trimSpace g) with _ | v <;> simp only [h]
      · exact ih post _ _ _ _ hpre'
      · exact ih post _ _ _ _ hpre'

/-- C8: an options string containing an unknown flag token (before any
`data=` token) parses to a structured error carrying the token's index and
trimmed text, while every sibling token is still processed: the resulting
flags, fstype and data are exactly those obtained with the unknown token
removed from the field list. -/
theorem c8_unknown_token_error (options : Str) (pre post : List Str) (f : Str)
    (hsplit : goSplit ',' options = pre ++ f :: post)
    (hpre : ∀ g ∈ pre, ¬ dataEq.isPrefixOf (trimSpace g))
    (hft : ¬ typeEq.isPrefixOf (trimSpace f))
    (hfd : ¬ dataEq.isPrefixOf (trimSpace f))
    (hfu : findOption (trimSpace f) = none) :
    (pre.length, trimSpace f) ∈ (optionsParse options).2.2.2
    ∧ (optionsParse options).1 = (parseGo 0 [] [] 0 (pre ++ post)).1
    ∧ (optionsParse options).2.1 = (parseGo 0 [] [] 0 (pre ++ post)).2.1
    ∧ (optionsParse options).2.2.1 = (parseGo 0 [] [] 0 (pre ++ post)).2.2.1 := by
  have h := parseGo_unknown f hft hfd hfu pre post 0 [] [] 0 hpre
  rw [optionsParse, hsplit]
  simpa using h

/-- C8 witness: concrete instance at options = `"bogus,ro"`. -/
theorem c8_unknown_token_error_witness :
    (([] : List Str).length, trimSpace "bogus".toList)
        ∈ (optionsParse "bogus,ro".toList).2.2.2
    ∧ (optionsParse "bogus,ro".toList).1 = (parseGo 0 [] [] 0 ([] ++ ["ro".toList])).1
    ∧ (optionsParse "bogus,ro".toList).2.1 = (parseGo 0 [] [] 0 ([] ++ ["ro".toList])).2.1
    ∧ (optionsParse "bogus,ro".toList).2.2.1
        = (parseGo 0 [] [] 0 ([] ++ ["ro".toList])).2.2.1 :=
  c8_unknown_token_error "bogus,ro".toList [] ["ro".toList] "bogus".toList
    (by decide) (by decide) (by decide) (by decide) (by decide)

/-! ### The `Flags` configuration struct -/

/-- Default permissions (`kDefaultPerms = 0o755`). -/
def kDefaultPerms : Nat := 493

/-- Default exit code for errors in the launcher itself (`kDefaultExit`). -/
def kDefaultExit : Nat := 125

/-- Default wait timeout (`kDefaultTimeout = 300s`), in nanoseconds. -/
def kDefaultTimeout : Int := 300000000000

/-- The `Flags` struct of the launcher (durations in nanoseconds). -/
structure Flags where
  Fail : Bool
  Root : Bool
  Hostname : Str
  Chdir : Str
  Faketree : Str
  Perms : Nat
  Proc : Bool
  Wait : Bool
  Propagate : Bool
  TermOnWait : Bool
  Timeout : Int
  Uid : Int
  Gid : Int
  Mount : List MountFlags
deriving DecidableEq

/-! ### The supervisor wait loop (`WaitChildren`) and `exit` -/

/-- Go `syscall.WaitStatus.Exited()` (Linux: low 7 bits zero). -/
def waitExited (s : Nat) : Bool := s &&& 0x7f = 0

/-- Go `syscall.WaitStatus.Stopped()`. -/
def waitStopped (s : Nat) : Bool := s &&& 0xff = 0x7f

/-- Go `syscall.WaitStatus.Continued()`. -/
def waitContinued (s : Nat) : Bool := s = 0xffff

/-- Go `syscall.WaitStatus.ExitStatus()` for an exited status. -/
def waitExitStatus (s : Nat) : Nat := (s >>> 8) &&& 0xff

/-- `WaitChildren` over the trace of reaped `(pid, status)` events, ending
when `wait4` reports ECHILD. The remembered result starts as the ECHILD error
(`none`) and is replaced whenever the direct child is reaped with a
non-stop/non-continue status: by its exit code if it exited normally, by the
raw status bitmask otherwise. -/
def WaitChildren (childPid : Nat) (events : List (Nat × Nat)) : Option Nat :=
  events.foldl (fun acc e =>
    if e.1 = childPid ∧ ¬ waitStopped e.2 ∧ ¬ waitContinued e.2 then
      some (if waitExited e.2 then waitExitStatus e.2 else e.2)
    else acc) none

/-- `exit` applied to `WaitChildren`'s result: an `ExitStatus K` becomes
`os.Exit(K)` (the OS keeps the low 8 bits); any other error — including the
ECHILD anomaly — logs and exits `kDefaultExit`. -/
def exitCode (r : Option Nat) : Nat :=
  match r with
  | some k => k % 256
  | none => kDefaultExit

lemma waitChildren_no_child (childPid : Nat) :
    ∀ (l : List (Nat × Nat)) (acc : Option Nat), (∀ e ∈ l, e.1 ≠ childPid) →
    l.foldl (fun acc e =>
      if e.1 = childPid ∧ ¬ waitStopped e.2 ∧ ¬ waitContinued e.2 then
        some (if waitExited e.2 then waitExitStatus e.2 else e.2)
      else acc) acc = acc := by
  intro l
  induction l with
  | nil => intro acc _; rfl
  | cons e l ih =>
    intro acc h
    have he : e.1 ≠ childPid := h e (by simp)
    rw [List.foldl_cons, if_neg (fun hcon => he hcon.1)]
    exact ih acc (fun x hx => h x (by simp [hx]))

/-- The wait loop over a trace in which the direct child is reaped exactly
once (with a non-stop/non-continue status) remembers that status. -/
lemma waitChildren_single (childPid : Nat) (pre post : List (Nat × Nat)) (s : Nat)
    (hpre : ∀ e ∈ pre, e.1 ≠ childPid) (hpost : ∀ e ∈ post, e.1 ≠ childPid)
    (hst : waitStopped s = false) (hco : waitContinued s = false) :
    WaitChildren childPid (pre ++ (childPid, s) :: post)
      = some (if waitExited s then waitExitStatus s else s) := by
  unfold WaitChildren
  rw [List.foldl_append, waitChildren_no_child childPid pre none hpre, List.foldl_cons]
  rw [if_pos ⟨rfl, by simp [hst], by simp [hco]⟩]
  exact waitChildren_no_child childPid post _ hpost

/-- C1 (amended): in a run where the direct child is reaped once with status
`s` among arbitrarily many grandchild events, the launcher exits with the
child's exit code when it exited normally; when it was killed by a signal the
launcher exits with the raw wait status `s` (the signal number, plus 128 only
when a core dump was produced) — not with `128+N` as the shell convention
would give. -/
theorem c1_subreaper_exit_status (childPid : Nat) (pre post : List (Nat × Nat)) (s : Nat)
    (hpre : ∀ e ∈ pre, e.1 ≠ childPid)
    (hpost : ∀ e ∈ post, e.1 ≠ childPid) :
    (∀ K : Nat, K < 256 → s = K * 256 →
      exitCode (WaitChildren childPid (pre ++ (childPid, s) :: post)) = K)
    ∧ (waitExited s = false → waitStopped s = false → waitContinued s = false → s < 256 →
      exitCode (WaitChildren childPid (pre ++ (childPid, s) :: post)) = s) := by
  constructor
  · intro K hK hs
    subst hs
    have h127 := Nat.and_pow_two_sub_one_eq_mod (K * 256) 7
    norm_num at h127
    have h255 := Nat.and_pow_two_sub_one_eq_mod (K * 256) 8
    norm_num at h255
    have hex : waitExited (K * 256) = true := by
      have hz : K * 256 % 128 = 0 := by omega
      simp [waitExited, h127, hz]
    have hst : waitStopped (K * 256) = false := by
      simp only [waitStopped, h255, decide_eq_false_iff_not]
      omega
    have hco : waitContinued (K * 256) = false := by
      simp only [waitContinued, decide_eq_false_iff_not]
      omega
    have hval : waitExitStatus (K * 256) = K := by
      have h1 : (K * 256) >>> 8 = K := by
        rw [Nat.shiftRight_eq_div_pow]
        omega
      have h2 := Nat.and_pow_two_sub_one_eq_mod K 8
      norm_num at h2
      have h3 : K % 256 = K := by omega
      unfold waitExitStatus
      rw [h1, h2, h3]
    have hm : K % 256 = K := by omega
    rw [waitChildren_single childPid pre post _ hpre hpost hst hco]
    simp [exitCode, hex, hval, hm]
  · intro hex hst hco hs
    have hm : s % 256 = s := by omega
    rw [waitChildren_single childPid pre post _ hpre hpost hst hco]
    simp [exitCode, hex, hm]

/-- C1 witness: child pid 7 exits with code 3 (status `3*256`) while a
grandchild event is also reaped; and the signal branch hypotheses at a
status killed by SIGTERM. -/
theorem c1_subreaper_exit_status_witness :
    ((∀ K : Nat, K < 256 → (768 : Nat) = K * 256 →
      exitCode (WaitChildren 7 ([(8, 0)] ++ (7, 768) :: [(9, 9)])) = K)
    ∧ (waitExited 768 = false → waitStopped 768 = false → waitContinued 768 = false →
        768 < 256 → exitCode (WaitChildren 7 ([(8, 0)] ++ (7, 768) :: [(9, 9)])) = 768))
    ∧ exitCode (WaitChildren 7 ([(8, 0)] ++ (7, 768) :: [(9, 9)])) = 3 :=
  ⟨c1_subreaper_exit_status 7 [(8, 0)] [(9, 9)] 768 (by decide) (by decide),
   by decide⟩

/-- C1 counterexample: the direct child of pid-1 is killed by signal 15
(wait status 15, no core dump): the launcher exits with status 15, not with
`128+15 = 143` as the claim states. -/
theorem c1_counterexample :
    waitExited 15 = false ∧ waitStopped 15 = false ∧ waitContinued 15 = false
    ∧ (15 : Nat) &&& 0x7f = 15
    ∧ exitCode (WaitChildren 5 [(5, 15)]) = 15
    ∧ (15 : Nat) ≠ 128 + 15 := by decide

/-! ### Signal propagation target (`RunAndWait`, `PropagateSignals`) -/

/-- `PropagateSignals`: every received signal becomes `kill(pid, sig)`. -/
def PropagateSignals (pid : Int) (sigs : List Nat) : List (Int × Nat) :=
  sigs.map (fun s => (pid, s))

/-- The pid selection in `RunAndWait`: only a zero `pidOverride` is replaced
by the direct child's pid after `Start`. -/
def runAndWaitSignalTarget (pidOverride childPid : Int) : Int :=
  if pidOverride = 0 then childPid else pidOverride

/-- The `kill(2)` calls issued by the propagation goroutine of `RunAndWait`
over a run receiving the given signals. -/
def runAndWaitKills (propagate : Bool) (pidOverride childPid : Int) (sigs : List Nat) :
    List (Int × Nat) :=
  if propagate then PropagateSignals (runAndWaitSignalTarget pidOverride childPid) sigs
  else []

/-- `pidOverride` passed by stage S0 (`enterSystem`). -/
def enterSystemPidOverride : Int := 0

/-- `pidOverride` passed by stage S2's outer process (`enterPrivileges`). -/
def enterPrivilegesPidOverride : Int := -1

/-- C4 (amended): with `propagate=true`, forwarded signals target the direct
child's pid only in the `pidOverride=0` case (stage S0); in the
`pidOverride=-1` case (stage S2's outer process) every forwarded `kill(2)`
targets pid `-1` — the kernel's "all processes you may signal" broadcast —
and not `cmd.Process.Pid`. -/
theorem c4_signal_forward_target (sigs : List Nat) (childPid : Int) :
    (∀ k ∈ runAndWaitKills true enterSystemPidOverride childPid sigs, k.1 = childPid)
    ∧ (∀ k ∈ runAndWaitKills true enterPrivilegesPidOverride childPid sigs, k.1 = -1)
    ∧ runAndWaitKills false enterPrivilegesPidOverride childPid sigs = [] := by
  refine ⟨?_, ?_, rfl⟩
  · intro k hk
    simp [runAndWaitKills, PropagateSignals, runAndWaitSignalTarget,
      enterSystemPidOverride] at hk
    rcases hk with ⟨s, _, hs⟩
    simp [← hs]
  · intro k hk
    simp [runAndWaitKills, PropagateSignals, runAndWaitSignalTarget,
      enterPrivilegesPidOverride] at hk
    rcases hk with ⟨s, _, hs⟩
    simp [← hs]

/-- C4 counterexample: in the `pidOverride=-1` case used by stage S2, a
forwarded SIGTERM is `kill(-1, 15)`, whose target is not the direct child's
pid (42 here) — the claim that every forwarded kill targets
`cmd.Process.Pid` is false. -/
theorem c4_counterexample :
    runAndWaitKills true enterPrivilegesPidOverride 42 [15] = [(-1, 15)]
    ∧ ((-1 : Int) ≠ 42) := by decide

/-! ### Stage S2 (`initializePrivileges`): privilege drop, chdir, exec -/

/-- Environment outcomes for stage S2's syscalls: whether setuid/setgid fail,
and the errors (if any) of the best-effort `MkdirAll` and of `Chdir`. -/
structure S2Env where
  setuidFails : Bool
  setgidFails : Bool
  mkdirErr : Option Str
  chdirErr : Option Str
deriving DecidableEq

/-- The error payload carried by a fatal S2 `exit`: the chdir message embeds
both the chdir error and the result of the best-effort mkdir. -/
inductive S2ErrPart where
  | setuidMsg : S2ErrPart
  | setgidMsg : S2ErrPart
  | chdirMsg : Str → Option Str → S2ErrPart
deriving DecidableEq

/-- Result of stage S2 after flag parsing: a fatal exit with code and error
payload, or the final `exec` of the user command. -/
inductive S2Result where
  | exited : Nat → S2ErrPart → S2Result
  | execed : List Str → S2Result
deriving DecidableEq

/-- `initializePrivileges` after flag parsing: setuid and setgid failures go
through `LogOrFail` (fatal only when `fail`); with a non-empty `chdir`, a
failing `os.Chdir` calls `exit` directly with an error wrapping both the
chdir error and the mkdir result; otherwise the user command is exec'd. -/
def initializePrivileges (env : S2Env) (fl : Flags) (left : List Str) : S2Result :=
  if env.setuidFails ∧ fl.Fail then .exited kDefaultExit .setuidMsg
  else if env.setgidFails ∧ fl.Fail then .exited kDefaultExit .setgidMsg
  else
    match (if fl.Chdir ≠ [] then env.chdirErr else none) with
    | some e => .exited kDefaultExit (.chdirMsg e env.mkdirErr)
    | none => .execed left

/-- C9: in stage S2 with a non-empty `chdir`, a chdir failure (reached when
no earlier privilege-drop error was fatal) terminates the stage with exit
code 125 for either value of `fail`, reporting both the chdir error and the
mkdir result; setuid/setgid failures, by contrast, are fatal only when
`fail=true` — with `fail=false` the outcome is unchanged by them. -/
theorem c9_chdir_always_fatal (env : S2Env) (fl : Flags) (left : List Str) (e : Str)
    (hchdir : fl.Chdir ≠ [])
    (hce : env.chdirErr = some e)
    (hreach : ¬ (fl.Fail = true ∧ (env.setuidFails = true ∨ env.setgidFails = true))) :
    initializePrivileges env fl left = .exited 125 (.chdirMsg e env.mkdirErr)
    ∧ (∀ b₁ b₂ : Bool, fl.Fail = false →
        initializePrivileges ⟨b₁, b₂, env.mkdirErr, env.chdirErr⟩ fl left
          = initializePrivileges ⟨false, false, env.mkdirErr, env.chdirErr⟩ fl left)
    ∧ (env.setuidFails = true → fl.Fail = true →
        initializePrivileges env fl left = .exited 125 .setuidMsg) := by
  refine ⟨?_, ?_, ?_⟩
  · have h₁ : ¬ (env.setuidFails = true ∧ fl.Fail = true) := fun h => hreach ⟨h.2, Or.inl h.1⟩
    have h₂ : ¬ (env.setgidFails = true ∧ fl.Fail = true) := fun h => hreach ⟨h.2, Or.inr h.1⟩
    simp only [initializePrivileges, if_neg h₁, if_neg h₂, if_pos hchdir, hce, kDefaultExit]
  · intro b₁ b₂ hf
    simp [initializePrivileges, hf]
  · intro hsu hf
    simp [initializePrivileges, hsu, hf, kDefaultExit]

/-- C9 witness: with `fail=true` and a failing chdir to `"/d"` (mkdir also
failing), stage S2 exits 125 carrying both errors. -/
theorem c9_chdir_always_fatal_witness :
    initializePrivileges ⟨false, false, some "M".toList, some "E".toList⟩
        ⟨true, false, [], "/d".toList, [], kDefaultPerms, false, true, true, true,
          kDefaultTimeout, 0, 0, []⟩ []
      = .exited 125 (.chdirMsg "E".toList (some "M".toList))
    ∧ (∀ b₁ b₂ : Bool,
        (⟨true, false, [], "/d".toList, [], kDefaultPerms, false, true, true, true,
          kDefaultTimeout, 0, 0, []⟩ : Flags).Fail = false →
        initializePrivileges ⟨b₁, b₂, some "M".toList, some "E".toList⟩
            ⟨true, false, [], "/d".toList, [], kDefaultPerms, false, true, true, true,
              kDefaultTimeout, 0, 0, []⟩ []
          = initializePrivileges ⟨false, false, some "M".toList, some "E".toList⟩
              ⟨true, false, [], "/d".toList, [], kDefaultPerms, false, true, true, true,
                kDefaultTimeout, 0, 0, []⟩ [])
    ∧ ((⟨false, false, some "M".toList, some "E".toList⟩ : S2Env).setuidFails = true →
        (⟨true, false, [], "/d".toList, [], kDefaultPerms, false, true, true, true,
          kDefaultTimeout, 0, 0, []⟩ : Flags).Fail = true →
        initializePrivileges ⟨false, false, some "M".toList, some "E".toList⟩
            ⟨true, false, [], "/d".toList, [], kDefaultPerms, false, true, true, true,
              kDefaultTimeout, 0, 0, []⟩ []
          = .exited 125 .setuidMsg) :=
  c9_chdir_always_fatal ⟨false, false, some "M".toList, some "E".toList⟩
    ⟨true, false, [], "/d".toList, [], kDefaultPerms, false, true, true, true,
      kDefaultTimeout, 0, 0, []⟩ [] "E".toList (by decide) (by decide) (by decide)

/-! ### Stage S1 (`initializeSystem`): the mount engine -/

/-- Observable events of stage S1: skipped mounts (with their loggedic
reason), `mount(2)` syscalls with their five arguments, and failure logs. -/
inductive S1Event where
  | skipNormalize : MountFlags → S1Event
  | skipProc : MountFlags → S1Event
  | mountCall : Str → Str → Str → Nat → Str → S1Event
  | mkTargetFailLog : MountFlags → S1Event
  | mountFailLog : MountFlags → S1Event
  | hostnameFailLog : S1Event
deriving DecidableEq

/-- Environment oracle for stage S1: the outcome of `sethostname`, of
`Normalize` (realpath), of `MakeTarget` and of the `mount(2)` syscall. -/
structure S1Env where
  sethostnameOK : Bool
  normalize : MountFlags → Option MountFlags
  makeTargetOK : MountFlags → Bool
  mountOK : MountFlags → Bool

/-- The source argument `MountFlags.Mount()` passes to `mount(2)`: an empty
source is replaced by the fstype, or by `"none"` when that is empty too. -/
def mountSyscallSource (mf : MountFlags) : Str :=
  if mf.Source = [] then (if mf.Fstype = [] then "none".toList else mf.Fstype)
  else mf.Source

/-- The `mount(2)` call event issued by `MountFlags.Mount()`. -/
def mountCallOf (mf : MountFlags) : S1Event :=
  .mountCall (mountSyscallSource mf) mf.Target mf.Fstype mf.Flags mf.Data

/-- `Flags.LogOrFail`: log the event; with `fail=true` exit `kDefaultExit`. -/
def s1LogOrFail (fail : Bool) (ev : S1Event) : List S1Event × Option Nat :=
  ([ev], if fail then some kDefaultExit else none)

/-- Sequencing with early exit: once a step exited, later steps do not run. -/
def s1Seq (a : List S1Event × Option Nat) (k : Unit → List S1Event × Option Nat) :
    List S1Event × Option Nat :=
  match a with
  | (evs, some c) => (evs, some c)
  | (evs, none) => (evs ++ (k ()).1, (k ()).2)

/-- One iteration of the user-mount loop of `initializeSystem`: normalize
(skip on failure), skip `/proc` targets unless `proc`, pre-create the target,
issue the `mount(2)` call, and log failures (target-creation failure is
reported only when the mount itself also failed). -/
def s1MountStep (env : S1Env) (fail procF : Bool) (m : MountFlags) :
    List S1Event × Option Nat :=
  match env.normalize m with
  | none => s1LogOrFail fail (.skipNormalize m)
  | some mount =>
    if procF = false ∧ (mount.Target = "/proc".toList ∨ mount.Target = "/proc/".toList) then
      s1LogOrFail fail (.skipProc m)
    else if env.mountOK mount then ([mountCallOf mount], none)
    else
      s1Seq ([mountCallOf mount], none) (fun _ =>
        s1Seq (if env.makeTargetOK mount = false then s1LogOrFail fail (.mkTargetFailLog mount)
               else ([], none))
          (fun _ => s1LogOrFail fail (.mountFailLog mount)))

/-- The user-mount loop, in order. -/
def s1Mounts (env : S1Env) (fail procF : Bool) : List MountFlags → List S1Event × Option Nat
  | [] => ([], none)
  | m :: rest => s1Seq (s1MountStep env fail procF m) (fun _ => s1Mounts env fail procF rest)

/-- Flag word of the automatic `/proc` mount. -/
def s1AutoProcFlags : Nat := MS_RELATIME ||| MS_NODEV ||| MS_NOEXEC ||| MS_NOSUID

/-- The `MountFlags` record used for the automatic `/proc` mount. -/
def s1AutoProcMount : MountFlags := ⟨[], "/proc".toList, s1AutoProcFlags, "proc".toList, []⟩

/-- The automatic `/proc` mount step, performed only when `proc=false`. -/
def s1AutoProcStep (env : S1Env) (fail procF : Bool) : List S1Event × Option Nat :=
  if procF = false then
    s1Seq ([mountCallOf s1AutoProcMount], none) (fun _ =>
      if env.mountOK s1AutoProcMount then ([], none)
      else s1LogOrFail fail (.mountFailLog s1AutoProcMount))
  else ([], none)

/-- `initializeSystem` after flag parsing: hostname step, user mounts in
order, then the automatic `/proc` mount. -/
def initializeSystem (env : S1Env) (fl : Flags) : List S1Event × Option Nat :=
  s1Seq (if fl.Hostname ≠ [] ∧ env.sethostnameOK = false
         then s1LogOrFail fl.Fail .hostnameFailLog else ([], none))
    (fun _ => s1Seq (s1Mounts env fl.Fail fl.Proc fl.Mount)
      (fun _ => s1AutoProcStep env fl.Fail fl.Proc))

/-- Whether an event is a `mount(2)` call with target exactly `/proc`. -/
def isProcMountCall : S1Event → Bool
  | .mountCall _ t _ _ _ => t = "/proc".toList
  | _ => false

lemma s1Seq_none {a : List S1Event × Option Nat} (k : Unit → List S1Event × Option Nat)
    (h : a.2 = none) : s1Seq a k = (a.1 ++ (k ()).1, (k ()).2) := by
  rcases a with ⟨evs, e⟩
  cases e with
  | none => rfl
  | some c => exact absurd h (by simp)

lemma s1MountStep_exit_none (env : S1Env) (procF : Bool) (m : MountFlags) :
    (s1MountStep env false procF m).2 = none := by
  unfold s1MountStep
  rcases env.normalize m with _ | mount
  · rfl
  · simp only []
    split
    · rfl
    · split
      · rfl
      · rcases h : env.makeTargetOK mount with _ | _ <;> simp [s1Seq, s1LogOrFail, h]

lemma s1Mounts_nofail (env : S1Env) (procF : Bool) :
    ∀ ms : List MountFlags,
    s1Mounts env false procF ms
      = (ms.flatMap (fun m => (s1MountStep env false procF m).1), none) := by
  intro ms
  induction ms with
  | nil => rfl
  | cons m rest ih =>
    rw [s1Mounts, s1Seq_none _ (s1MountStep_exit_none env procF m), ih]
    simp

lemma s1MountStep_no_proc_call (env : S1Env) (m : MountFlags) :
    ∀ ev ∈ (s1MountStep env false false m).1, isProcMountCall ev = false := by
  intro ev hev
  unfold s1MountStep at hev
  rcases hn : env.normalize m with _ | mount <;> rw [hn] at hev
  · simp [s1LogOrFail] at hev
    simp [hev, isProcMountCall]
  · simp only [eq_self_iff_true, true_and] at hev
    by_cases hp : (mount.Target = "/proc".toList ∨ mount.Target = "/proc/".toList)
    · rw [if_pos hp] at hev
      simp [s1LogOrFail] at hev
      simp [hev, isProcMountCall]
    · rw [if_neg hp] at hev
      have htne : mount.Target ≠ "/proc".toList := by
        intro h
        exact hp (Or.inl h)
      by_cases hm : env.mountOK mount = true
      · rw [if_pos hm] at hev
        simp at hev
        simp [hev, mountCallOf, isProcMountCall]
        simpa using htne
      · rw [if_neg hm] at hev
        rw [s1Seq_none _ (by rfl)] at hev
        simp at hev
        rcases hev with hev | hev
        · simp [hev, mountCallOf, isProcMountCall]
          simpa using htne
        · rcases hmk : env.makeTargetOK mount with _ | _ <;>
            rw [hmk] at hev <;> simp [s1Seq, s1LogOrFail] at hev
          · rcases hev with hev | hev <;> simp [hev, isProcMountCall]
          · simp [hev, isProcMountCall]

lemma s1MountStep_skip (env : S1Env) (m nm : MountFlags) (hn : env.normalize m = some nm)
    (ht : nm.Target = "/proc".toList ∨ nm.Target = "/proc/".toList) :
    (s1MountStep env false false m).1 = [S1Event.skipProc m] := by
  simp only [s1MountStep, hn]
  rw [if_pos (by exact ⟨trivial, ht⟩)]
  rfl

lemma s1MountStep_attempt (env : S1Env) (m nm : MountFlags) (hn : env.normalize m = some nm) :
    (s1MountStep env false true m).1.head? = some (mountCallOf nm) := by
  simp only [s1MountStep, hn]
  rw [if_neg (fun h => by cases h.1)]
  split
  · rfl
  · rw [s1Seq_none _ rfl]
    rfl

lemma s1AutoProcStep_run (env : S1Env) :
    (s1AutoProcStep env false false).1
      = mountCallOf s1AutoProcMount ::
          (if env.mountOK s1AutoProcMount then []
           else [S1Event.mountFailLog s1AutoProcMount]) := by
  unfold s1AutoProcStep
  rw [if_pos rfl, s1Seq_none _ rfl]
  split <;> rfl

lemma initializeSystem_nofail (env : S1Env) (fl : Flags) (hfail : fl.Fail = false) :
    initializeSystem env fl
      = ((if fl.Hostname ≠ [] ∧ env.sethostnameOK = false
          then [S1Event.hostnameFailLog] else [])
          ++ ((fl.Mount.flatMap fun m => (s1MountStep env false fl.Proc m).1)
            ++ (s1AutoProcStep env false fl.Proc).1), none) := by
  have hauto2 : (s1AutoProcStep env false fl.Proc).2 = none := by
    unfold s1AutoProcStep
    split
    · rw [s1Seq_none _ rfl]
      split <;> rfl
    · rfl
  unfold initializeSystem
  rw [hfail]
  by_cases hc : fl.Hostname ≠ [] ∧ env.sethostnameOK = false
  · rw [if_pos hc, s1Seq_none _ rfl, s1Mounts_nofail env fl.Proc fl.Mount,
      s1Seq_none _ rfl, hauto2]
    simp [s1LogOrFail, hc]
  · rw [if_neg hc, s1Seq_none _ rfl, s1Mounts_nofail env fl.Proc fl.Mount,
      s1Seq_none _ rfl, hauto2]
    simp [s1LogOrFail, hc]

/-- C3 (amended, for `fail=false`; with `fail=true` a skipped `/proc` mount
exits the stage instead, see the counterexample): in stage S1 with
`proc=false`, every user mount whose normalized target is `/proc` or `/proc/`
contributes exactly a logged skip event; one automatic `mount(2)` of a fresh
procfs at `/proc` with flags `MS_RELATIME|MS_NODEV|MS_NOEXEC|MS_NOSUID`
happens after all user-mount events, and it is the only mount call targeting
`/proc`. With `proc=true` no auto-mount step is appended and a user mount
that normalizes successfully — `/proc` targets included — proceeds to its
`mount(2)` call. -/
theorem c3_proc_guard (env : S1Env) (fl : Flags) (hfail : fl.Fail = false) :
    (initializeSystem env fl).2 = none
    ∧ (fl.Proc = false →
        (∀ m ∈ fl.Mount, ∀ nm, env.normalize m = some nm →
          (nm.Target = "/proc".toList ∨ nm.Target = "/proc/".toList) →
          (s1MountStep env fl.Fail fl.Proc m).1 = [S1Event.skipProc m]
          ∧ S1Event.skipProc m ∈ (initializeSystem env fl).1)
        ∧ (∃ userEvs, (initializeSystem env fl).1
              = userEvs ++ (s1AutoProcStep env fl.Fail fl.Proc).1
            ∧ (s1AutoProcStep env fl.Fail fl.Proc).1.head? = some (mountCallOf s1AutoProcMount)
            ∧ (∀ ev ∈ userEvs, isProcMountCall ev = false))
        ∧ mountCallOf s1AutoProcMount
            = S1Event.mountCall "proc".toList "/proc".toList "proc".toList
                (MS_RELATIME ||| MS_NODEV ||| MS_NOEXEC ||| MS_NOSUID) []
        ∧ (initializeSystem env fl).1.countP isProcMountCall = 1)
    ∧ (fl.Proc = true →
        (initializeSystem env fl).1
          = (if fl.Hostname ≠ [] ∧ env.sethostnameOK = false
             then [S1Event.hostnameFailLog] else [])
            ++ fl.Mount.flatMap (fun m => (s1MountStep env fl.Fail fl.Proc m).1)
        ∧ (∀ m nm, env.normalize m = some nm →
            (s1MountStep env fl.Fail fl.Proc m).1.head? = some (mountCallOf nm))) := by
  have hmain := initializeSystem_nofail env fl hfail
  refine ⟨by rw [hmain], ?_, ?_⟩
  · intro hproc
    rw [hfail, hproc]
    have hskipmem : ∀ m ∈ fl.Mount, ∀ nm, env.normalize m = some nm →
        (nm.Target = "/proc".toList ∨ nm.Target = "/proc/".toList) →
        (s1MountStep env false false m).1 = [S1Event.skipProc m]
        ∧ S1Event.skipProc m ∈ (initializeSystem env fl).1 := by
      intro m hm nm hn ht
      have hstep := s1MountStep_skip env m nm hn ht
      refine ⟨hstep, ?_⟩
      rw [hmain, hproc]
      have : S1Event.skipProc m ∈ fl.Mount.flatMap fun m => (s1MountStep env false false m).1 := by
        rw [List.mem_flatMap]
        exact ⟨m, hm, by rw [hstep]; simp⟩
      simp [this]
    refine ⟨hskipmem, ?_, rfl, ?_⟩
    · refine ⟨(if fl.Hostname ≠ [] ∧ env.sethostnameOK = false
          then [S1Event.hostnameFailLog] else [])
          ++ (fl.Mount.flatMap fun m => (s1MountStep env false false m).1), ?_, ?_, ?_⟩
      · rw [hmain, hproc]
        simp [List.append_assoc]
      · rw [s1AutoProcStep_run env]
        rfl
      · intro ev hev
        rcases List.mem_append.mp hev with h | h
        · have : ev = S1Event.hostnameFailLog := by
            rcases hc : (fl.Hostname ≠ [] ∧ env.sethostnameOK = false : Prop) with _
            by_cases hc : fl.Hostname ≠ [] ∧ env.sethostnameOK = false
            · rw [if_pos hc] at h
              simpa using h
            · rw [if_neg hc] at h
              simp at h
          simp [this, isProcMountCall]
        · rcases List.mem_flatMap.mp h with ⟨m, _, hev'⟩
          exact s1MountStep_no_proc_call env m ev hev'
    · rw [hmain, hproc]
      rw [List.countP_append, List.countP_append]
      have h1 : (if fl.Hostname ≠ [] ∧ env.sethostnameOK = false
          then [S1Event.hostnameFailLog] else []).countP isProcMountCall = 0 := by
        split <;> simp [isProcMountCall]
      have h2 : (fl.Mount.flatMap fun m => (s1MountStep env false false m).1).countP
          isProcMountCall = 0 := by
        rw [List.countP_eq_zero]
        intro ev hev
        rcases List.mem_flatMap.mp hev with ⟨m, _, hev'⟩
        simp [s1MountStep_no_proc_call env m ev hev']
      have h3 : (s1AutoProcStep env false false).1.countP isProcMountCall = 1 := by
        rw [s1AutoProcStep_run env, List.countP_cons]
        have hone : isProcMountCall (mountCallOf s1AutoProcMount) = true := by decide
        have hz : (if env.mountOK s1AutoProcMount then []
            else [S1Event.mountFailLog s1AutoProcMount]).countP isProcMountCall = 0 := by
          split <;> simp [isProcMountCall]
        simp [hone, hz]
      rw [h1, h2, h3]
  · intro hproc
    rw [hfail, hproc]
    constructor
    · rw [hmain, hproc]
      have : (s1AutoProcStep env false true).1 = [] := rfl
      simp [this]
    · intro m nm hn
      exact s1MountStep_attempt env m nm hn

/-- Concrete S1 environment for the C3 counterexample: every syscall
succeeds and normalization is the identity. -/
def c3CexEnv : S1Env := ⟨true, fun m => some m, fun _ => true, fun _ => true⟩

def c3CexMount : MountFlags := ⟨"/x".toList, "/proc".toList, DefaultMountFlags, [], []⟩

def c3CexFlags : Flags :=
  ⟨true, false, [], [], [], kDefaultPerms, false, true, true, true, kDefaultTimeout,
    0, 0, [c3CexMount]⟩

/-- C3 counterexample: with `fail=true` and `proc=false`, a user mount whose
target is `/proc` makes `LogOrFail` exit the stage with code 125 — the
automatic `/proc` mount is never performed, contradicting the unconditional
claim that exactly one auto-mount happens after all user mounts. -/
theorem c3_counterexample :
    initializeSystem c3CexEnv c3CexFlags = ([S1Event.skipProc c3CexMount], some 125)
    ∧ (initializeSystem c3CexEnv c3CexFlags).1.countP isProcMountCall = 0
    ∧ (0 : Nat) ≠ 1 := by decide

/-- Flags for the C3 witness: `fail=false`, `proc=false`, one user mount
targeting `/proc`. -/
def c3WitFlags : Flags :=
  ⟨false, false, [], [], [], kDefaultPerms, false, true, true, true, kDefaultTimeout,
    0, 0, [c3CexMount]⟩

/-- C3 witness: with `fail=false` the stage finishes without exiting and the
event trace contains exactly one `mount(2)` call targeting `/proc`. -/
theorem c3_proc_guard_witness :
    c3WitFlags.Fail = false
    ∧ (initializeSystem c3CexEnv c3WitFlags).2 = none
    ∧ (initializeSystem c3CexEnv c3WitFlags).1.countP isProcMountCall = 1 :=
  ⟨by decide, (c3_proc_guard c3CexEnv c3WitFlags (by decide)).1,
   ((c3_proc_guard c3CexEnv c3WitFlags (by decide)).2.1 (by decide)).2.2.2⟩

/-! ### Trailing-whitespace bookkeeping for the round-trip proofs -/

/-- A string whose last character (if any) is not whitespace. -/
def lastOk (s : Str) : Bool := s.getLast?.all (fun a => !isGoSpace a)

lemma dropWhile_eq_self_of_head (p : Char → Bool) (a : Char) (l : Str) (h : p a = false) :
    (a :: l).dropWhile p = a :: l := by
  simp [List.dropWhile_cons, h]

lemma rtrim_eq_self_of_lastOk {s : Str} (h : lastOk s = true) : rtrim s = s := by
  rcases hr : s.reverse with _ | ⟨a, t⟩
  · have : s = [] := by simpa using congrArg List.reverse hr
    simp [this, rtrim]
  · have ha : s.getLast? = some a := by
      rw [← List.head?_reverse, hr]
      rfl
    have hna : isGoSpace a = false := by
      have := h
      unfold lastOk at this
      rw [ha] at this
      simpa using this
    unfold rtrim
    rw [hr, dropWhile_eq_self_of_head isGoSpace a t hna, ← hr]
    simp

lemma head_dropWhile_not {p : Char → Bool} :
    ∀ (l : Str) {a : Char} {t : Str}, List.dropWhile p l = a :: t → p a = false := by
  intro l
  induction l with
  | nil => intro a t h; simp at h
  | cons x xs ih =>
    intro a t h
    rcases hx : p x with _ | _
    · rw [List.dropWhile_cons, hx] at h
      simp at h
      simp [← h.1, hx]
    · rw [List.dropWhile_cons, hx] at h
      exact ih (by simpa using h)

lemma lastOk_rtrim (s : Str) : lastOk (rtrim s) = true := by
  unfold rtrim lastOk
  rcases hd : s.reverse.dropWhile isGoSpace with _ | ⟨a, t⟩
  · simp
  · have := head_dropWhile_not _ hd
    simp [List.getLast?_reverse, this]

lemma lastOk_trimSpace (s : Str) : lastOk (trimSpace s) = true := lastOk_rtrim _

lemma lastOk_drop (s : Str) (n : Nat) (h : lastOk s = true) : lastOk (s.drop n) = true := by
  rcases hl : (s.drop n).getLast? with _ | b
  · simp [lastOk, hl]
  · have hsl : s.getLast? = some b := by
      conv_lhs => rw [← List.take_append_drop n s]
      rw [List.getLast?_append, hl]
      rfl
    unfold lastOk at h ⊢
    rw [hl]
    rw [hsl] at h
    exact h

lemma lastOk_append (x y : Str) (hx : lastOk x = true) (hy : lastOk y = true) :
    lastOk (x ++ y) = true := by
  unfold lastOk at *
  rw [List.getLast?_append]
  rcases hly : y.getLast? with _ | a
  · simpa [hly, Option.or] using hx
  · rw [hly] at hy
    simpa [hly, Option.or] using hy

/-- A token with a non-whitespace head and a non-whitespace last character is
stable under `TrimSpace`. -/
lemma trimSpace_token (a : Char) (t : Str) (ha : isGoSpace a = false)
    (h : lastOk (a :: t) = true) : trimSpace (a :: t) = a :: t := by
  unfold trimSpace
  rw [List.dropWhile_cons]
  rw [ha]
  exact rtrim_eq_self_of_lastOk h

lemma mem_rtrim {a : Char} {s : Str} (h : a ∈ rtrim s) : a ∈ s := by
  unfold rtrim at h
  rw [List.mem_reverse] at h
  have := (List.dropWhile_sublist (l := s.reverse) isGoSpace).subset h
  simpa using this

lemma mem_trimSpace {a : Char} {s : Str} (h : a ∈ trimSpace s) : a ∈ s := by
  unfold trimSpace at h
  have := mem_rtrim h
  exact (List.dropWhile_sublist isGoSpace).subset this

lemma lastOk_trim_drop (f : Str) (n : Nat) : lastOk ((trimSpace f).drop n) = true :=
  lastOk_drop _ n (lastOk_trimSpace f)

lemma not_mem_trim_drop {a : Char} {f : Str} {n : Nat} (h : a ∉ f) :
    a ∉ (trimSpace f).drop n := by
  intro hmem
  exact h (mem_trimSpace ((List.drop_sublist n (trimSpace f)).subset hmem))

/-! ### Bitmask lemmas for the option table -/

/-- Bitwise-or of the values of an option table. -/
def listOr (l : List (Str × Nat)) : Nat := l.foldr (fun p a => p.2 ||| a) 0

/-- The union of all known `MS_*` bits. -/
def knownMask : Nat := listOr KnownOptions

lemma testBit_listOr (i : Nat) :
    ∀ l : List (Str × Nat), (listOr l).testBit i = l.any (fun p => p.2.testBit i) := by
  intro l
  induction l with
  | nil => simp [listOr]
  | cons p l ih =>
    simp only [listOr, List.foldr_cons, Nat.testBit_lor, List.any_cons]
    rw [show List.foldr (fun p a => p.2 ||| a) 0 l = listOr l from rfl, ih]

lemma knownOptions_single_bit : ∀ p ∈ KnownOptions, ∃ k, p.2 = 2 ^ k := by
  intro p hp
  fin_cases hp
  · exact ⟨7, by norm_num [MS_DIRSYNC]⟩
  · exact ⟨6, by norm_num [MS_MANDLOCK]⟩
  · exact ⟨10, by norm_num [MS_NOATIME]⟩
  · exact ⟨2, by norm_num [MS_NODEV]⟩
  · exact ⟨11, by norm_num [MS_NODIRATIME]⟩
  · exact ⟨3, by norm_num [MS_NOEXEC]⟩
  · exact ⟨1, by norm_num [MS_NOSUID]⟩
  · exact ⟨0, by norm_num [MS_RDONLY]⟩
  · exact ⟨14, by norm_num [MS_REC]⟩
  · exact ⟨21, by norm_num [MS_RELATIME]⟩
  · exact ⟨15, by norm_num [MS_SILENT]⟩
  · exact ⟨24, by norm_num [MS_STRICTATIME]⟩
  · exact ⟨4, by norm_num [MS_SYNCHRONOUS]⟩
  · exact ⟨5, by norm_num [MS_REMOUNT]⟩
  · exact ⟨12, by norm_num [MS_BIND]⟩
  · exact ⟨20, by norm_num [MS_SHARED]⟩
  · exact ⟨18, by norm_num [MS_PRIVATE]⟩
  · exact ⟨19, by norm_num [MS_SLAVE]⟩
  · exact ⟨17, by norm_num [MS_UNBINDABLE]⟩
  · exact ⟨13, by norm_num [MS_MOVE]⟩

/-- Every known option token is a clean flag token: trim-stable, not a
`type=`/`data=` token, found in the table at its own value, and free of the
separator characters. -/
lemma knownOptions_token_good : ∀ p ∈ KnownOptions,
    trimSpace p.1 = p.1 ∧ typeEq.isPrefixOf p.1 = false ∧ dataEq.isPrefixOf p.1 = false
    ∧ findOption p.1 = some p.2 ∧ (',' : Char) ∉ p.1 := by decide

lemma knownOptions_value_mask : ∀ p ∈ KnownOptions, p.2 &&& knownMask = p.2 := by decide

lemma findOption_mem {f : Str} {v : Nat} (h : findOption f = some v) :
    (f, v) ∈ KnownOptions := by
  unfold findOption at h
  rcases ho : KnownOptions.find? (fun o => o.1 = f) with _ | o
  · rw [ho] at h
    simp at h
  · rw [ho] at h
    simp at h
    have h₁ := List.find?_some ho
    have h₂ := List.mem_of_find?_eq_some ho
    simp at h₁
    have : o = (f, v) := by
      rcases o with ⟨n, w⟩
      simp at h₁ h ⊢
      exact ⟨h₁, h⟩
    rw [this] at h₂
    exact h₂

lemma findOption_value_mask {f : Str} {v : Nat} (h : findOption f = some v) :
    v &&& knownMask = v :=
  knownOptions_value_mask (f, v) (findOption_mem h)

/-! ### Invariants of parse-produced mount data -/

def ftInv (ft : Str) : Prop := (',' : Char) ∉ ft ∧ lastOk ft = true

def daInv (da : Str) : Prop :=
  da = [] ∨ ∃ d₀ rest₀, da = goJoin ',' (d₀ :: rest₀) ∧ (',' : Char) ∉ d₀
    ∧ lastOk d₀ = true ∧ ∀ p ∈ rest₀, (',' : Char) ∉ p

lemma parseGo_inv : ∀ (fields : List Str) (fl : Nat) (ft : Str)
    (errs : List (Nat × Str)) (ix : Nat),
    (∀ f ∈ fields, (',' : Char) ∉ f) → fl &&& knownMask = fl → ftInv ft →
    ((parseGo fl ft errs ix fields).1 &&& knownMask = (parseGo fl ft errs ix fields).1
     ∧ ftInv (parseGo fl ft errs ix fields).2.1
     ∧ daInv (parseGo fl ft errs ix fields).2.2.1) := by
  intro fields
  induction fields with
  | nil =>
    intro fl ft errs ix _ hfl hft
    exact ⟨hfl, hft, Or.inl rfl⟩
  | cons f rest ih =>
    intro fl ft errs ix hcf hfl hft
    have hf : (',' : Char) ∉ f := hcf f (by simp)
    have hrest : ∀ g ∈ rest, (',' : Char) ∉ g := fun g hg => hcf g (by simp [hg])
    by_cases h₁ : typeEq.isPrefixOf (trimSpace f) = true
    · simp only [parseGo, if_pos h₁]
      exact ih _ _ _ _ hrest hfl ⟨not_mem_trim_drop hf, lastOk_trim_drop f 5⟩
    · by_cases h₂ : dataEq.isPrefixOf (trimSpace f) = true
      · simp only [parseGo, if_neg h₁, if_pos h₂]
        refine ⟨hfl, hft, Or.inr ⟨(trimSpace f).drop 5, rest, rfl,
          not_mem_trim_drop hf, lastOk_trim_drop f 5, hrest⟩⟩
      · simp only [parseGo, if_neg h₁, if_neg h₂]
        rcases hfo : findOption (trimSpace f) with _ | v <;> simp only [hfo]
        · exact ih _ _ _ _ hrest hfl hft
        · refine ih _ _ _ _ hrest ?_ hft
          rw [Nat.and_distrib_right, hfl, findOption_value_mask hfo]

/-- A `MountFlags` produced by `NewMountFlags` satisfies the structural
invariants used by the round-trip proofs. -/
def mountParseInv (mf : MountFlags) : Prop :=
  (':' : Char) ∉ mf.Source ∧ (':' : Char) ∉ mf.Target
  ∧ mf.Flags &&& knownMask = mf.Flags ∧ ftInv mf.Fstype ∧ daInv mf.Data

lemma NewMountFlags_inv {s : Str} {mf : MountFlags} (h : NewMountFlags s = some mf) :
    mountParseInv mf := by
  have hmem : ∀ x ∈ s.splitOn ':', (':' : Char) ∉ x := fun x hx => not_mem_of_mem_splitOn hx
  unfold NewMountFlags goSplitN3 at h
  rcases hspl : s.splitOn ':' with _ | ⟨a, _ | ⟨b, _ | ⟨c, rest⟩⟩⟩ <;> rw [hspl] at h
  · simp at h
  · simp at h
  · simp only [Option.some.injEq] at h
    have ha : (':' : Char) ∉ a := hmem a (by simp [hspl])
    have hb : (':' : Char) ∉ b := hmem b (by simp [hspl])
    rw [← h]
    exact ⟨ha, hb, (show DefaultMountFlags &&& knownMask = DefaultMountFlags by decide),
      ⟨by simp, rfl⟩, Or.inl rfl⟩
  · have ha : (':' : Char) ∉ a := hmem a (by simp [hspl])
    have hb : (':' : Char) ∉ b := hmem b (by simp [hspl])
    simp only [] at h
    by_cases herr : (optionsParse (goJoin ':' (c :: rest))).2.2.2 = []
    · rw [if_pos herr] at h
      simp only [Option.some.injEq] at h
      have hinv := parseGo_inv (goSplit ',' (goJoin ':' (c :: rest))) 0 [] [] 0
        (fun f hf => not_mem_of_mem_splitOn hf) (by simp) ⟨by simp, rfl⟩
      rw [← h]
      exact ⟨ha, hb, hinv.1, hinv.2.1, hinv.2.2⟩
    · rw [if_neg herr] at h
      simp at h

/-! ### Re-parsing a serialized options string -/

lemma foldl_or_eq : ∀ (l : List (Str × Nat)) (a : Nat),
    l.foldl (fun a p => a ||| p.2) a = a ||| listOr l := by
  intro l
  induction l with
  | nil => intro a; simp [listOr]
  | cons p l ih =>
    intro a
    rw [List.foldl_cons, ih (a ||| p.2)]
    simp [listOr, Nat.or_assoc]

/-- The bits that survive the serialize filter reassemble exactly the
original flag word, given that the word lies inside the known mask. -/
lemma filtered_or (fl : Nat) (hfl : fl &&& knownMask = fl) :
    listOr (KnownOptions.filter (fun o => fl &&& o.2 > 0)) = fl := by
  apply Nat.eq_of_testBit_eq
  intro i
  rw [testBit_listOr]
  have hmaskbit : fl.testBit i = true → knownMask.testBit i = true := by
    intro hb
    have := congrArg (fun x => x.testBit i) hfl
    simp only [Nat.testBit_land, hb, Bool.true_and] at this
    exact this
  rcases hbit : fl.testBit i with _ | _
  · rw [List.any_eq_false]
    intro p hp htb
    rcases List.mem_filter.mp hp with ⟨hmem, hcond⟩
    rcases knownOptions_single_bit p hmem with ⟨k, hk⟩
    rw [hk, Nat.testBit_two_pow] at htb
    have hik : k = i := by simpa using htb
    rw [hk, hik] at hcond
    simp only [decide_eq_true_eq] at hcond
    have h2 := Nat.and_two_pow fl i
    rw [h2] at hcond
    rcases hfb : fl.testBit i with _ | _
    · simp [hfb] at hcond
    · rw [hfb] at hbit
      exact Bool.noConfusion hbit
  · rw [List.any_eq_true]
    have hm := hmaskbit hbit
    rw [knownMask, testBit_listOr, List.any_eq_true] at hm
    rcases hm with ⟨p, hmem, htb⟩
    refine ⟨p, List.mem_filter.mpr ⟨hmem, ?_⟩, by simpa using htb⟩
    rcases knownOptions_single_bit p hmem with ⟨k, hk⟩
    rw [hk, Nat.testBit_two_pow] at htb
    have hik : k = i := by simpa using htb
    rw [hk, hik]
    simp only [decide_eq_true_eq]
    rw [Nat.and_two_pow fl i, hbit]
    simp

lemma parseGo_flag_tokens : ∀ (l : List (Str × Nat)), (∀ p ∈ l, p ∈ KnownOptions) →
    ∀ (rest : List Str) (fl : Nat) (ft : Str) (errs : List (Nat × Str)) (ix : Nat),
    parseGo fl ft errs ix (l.map (·.1) ++ rest)
      = parseGo (l.foldl (fun a p => a ||| p.2) fl) ft errs (ix + l.length) rest := by
  intro l
  induction l with
  | nil => intro _ rest fl ft errs ix; simp
  | cons p l ih =>
    intro hmem rest fl ft errs ix
    have hp := knownOptions_token_good p (hmem p (by simp))
    simp only [List.map_cons, List.cons_append, parseGo, hp.1]
    rw [if_neg (by simp [hp.2.1]), if_neg (by simp [hp.2.2.1]), hp.2.2.2.1]
    simp only [List.append_eq]
    rw [ih (fun q hq => hmem q (by simp [hq])) rest (fl ||| p.2) ft errs (ix + 1)]
    have hlen : ix + 1 + l.length = ix + (p :: l).length := by
      simp [List.length_cons]
      omega
    rw [hlen, List.foldl_cons]

lemma parseGo_type_token (ft : Str) (hft : ftInv ft) (rest : List Str) (fl : Nat)
    (ft₀ : Str) (errs : List (Nat × Str)) (ix : Nat) :
    parseGo fl ft₀ errs ix ((typeEq ++ ft) :: rest) = parseGo fl ft errs (ix + 1) rest := by
  have hlast : lastOk (typeEq ++ ft) = true := lastOk_append _ _ (by decide) hft.2
  have htrim : trimSpace (typeEq ++ ft) = typeEq ++ ft :=
    trimSpace_token 't' ("ype=".toList ++ ft) (by decide) hlast
  have hpre : typeEq.isPrefixOf (typeEq ++ ft) = true := by
    rw [List.isPrefixOf_iff_prefix]
    exact List.prefix_append _ _
  simp only [parseGo, htrim]
  rw [if_pos hpre, show (typeEq ++ ft).drop 5 = ft from List.drop_left typeEq ft]

lemma parseGo_data_token (d₀ : Str) (rest₀ : List Str) (hlast : lastOk d₀ = true)
    (fl : Nat) (ft : Str) (errs : List (Nat × Str)) (ix : Nat) :
    parseGo fl ft errs ix ((dataEq ++ d₀) :: rest₀)
      = (fl, ft, goJoin ',' (d₀ :: rest₀), errs) := by
  have hlast' : lastOk (dataEq ++ d₀) = true := lastOk_append _ _ (by decide) hlast
  have htrim : trimSpace (dataEq ++ d₀) = dataEq ++ d₀ :=
    trimSpace_token 'd' ("ata=".toList ++ d₀) (by decide) hlast'
  simp only [parseGo, htrim]
  rw [if_neg (by simp [typeEq_not_prefix_dataEq d₀]), if_pos (dataEq_prefix_append d₀),
    dataEq_append_drop]

lemma splitOn_goJoin_last (c : Char) (pre : List Str) (x : Str)
    (hpre : ∀ g ∈ pre, c ∉ g) :
    (goJoin c (pre ++ [x])).splitOn c = pre ++ x.splitOn c := by
  induction pre with
  | nil => simp [goJoin_singleton]
  | cons g l ih =>
    rw [List.cons_append, goJoin_cons_of_ne_nil g (l ++ [x]) (by simp),
      splitOn_append_cons c g _ (hpre g (by simp)), ih (fun q hq => hpre q (by simp [hq]))]
    rfl

lemma goJoin_cons_append (x d₀ : Str) (rest₀ : List Str) :
    x ++ goJoin ',' (d₀ :: rest₀) = goJoin ',' ((x ++ d₀) :: rest₀) := by
  cases rest₀ with
  | nil => simp [goJoin_singleton]
  | cons r rs =>
    rw [goJoin_cons_of_ne_nil d₀ (r :: rs) (by simp),
      goJoin_cons_of_ne_nil (x ++ d₀) (r :: rs) (by simp)]
    simp [List.append_assoc]

lemma optionsSerialize_eq (fl : Nat) (ft da : Str) (h : fl ≠ DefaultMountFlags) :
    optionsSerialize fl ft da
      = goJoin ',' ((KnownOptions.filter (fun o => fl &&& o.2 > 0)).map (·.1)
          ++ ((if ft ≠ [] then [typeEq ++ ft] else [])
            ++ (if da ≠ [] then [dataEq ++ da] else []))) := by
  simp [optionsSerialize, h, List.append_assoc]

lemma splitOn_single {c : Char} {t : Str} (h : c ∉ t) : t.splitOn c = [t] := by
  unfold List.splitOn
  exact List.splitOnP_eq_single _ _ (by simpa using fun a ha hb => h (by simpa [hb] using ha))

/-- Parsing the serialization of parse-produced mount options recovers the
original flags, fstype and data, provided the flag word differs from the
default (otherwise its tokens are elided) and the serialization is
non-empty. -/
lemma optionsParse_serialize (fl : Nat) (ft da : Str)
    (hfl : fl &&& knownMask = fl) (hft : ftInv ft) (hda : daInv da)
    (hndef : fl ≠ DefaultMountFlags)
    (hne : optionsSerialize fl ft da ≠ []) :
    optionsParse (optionsSerialize fl ft da) = (fl, ft, da, []) := by
  have hFmem : ∀ p ∈ KnownOptions.filter (fun o => fl &&& o.2 > 0), p ∈ KnownOptions :=
    fun p hp => (List.mem_filter.mp hp).1
  have hFcf : ∀ t ∈ (KnownOptions.filter (fun o => fl &&& o.2 > 0)).map (·.1),
      (',' : Char) ∉ t := by
    intro t ht
    rcases List.mem_map.mp ht with ⟨p, hp, hpt⟩
    rw [← hpt]
    exact (knownOptions_token_good p (hFmem p hp)).2.2.2.2
  have hor : (KnownOptions.filter (fun o => fl &&& o.2 > 0)).foldl
      (fun a p => a ||| p.2) 0 = fl := by
    rw [foldl_or_eq, Nat.zero_or]
    exact filtered_or fl hfl
  have hTtok : (',' : Char) ∉ typeEq ++ ft := by
    intro hmem
    rcases List.mem_append.mp hmem with h | h
    · simp [typeEq] at h
    · exact hft.1 h
  rw [optionsSerialize_eq fl ft da hndef]
  by_cases hdane : da = []
  · subst hdane
    rw [if_neg (show ¬(([] : Str) ≠ []) from by simp), List.append_nil]
    by_cases hftne : ft = []
    · subst hftne
      rw [if_neg (show ¬(([] : Str) ≠ []) from by simp), List.append_nil]
      have hFne : (KnownOptions.filter (fun o => fl &&& o.2 > 0)).map (·.1) ≠ [] := by
        intro h0
        apply hne
        rw [optionsSerialize_eq fl [] [] hndef, if_neg (by simp), if_neg (by simp), h0]
        rfl
      have hsp : (goJoin ',' ((KnownOptions.filter (fun o => fl &&& o.2 > 0)).map (·.1))).splitOn ','
          = (KnownOptions.filter (fun o => fl &&& o.2 > 0)).map (·.1) :=
        List.splitOn_intercalate _ ',' hFcf hFne
      unfold optionsParse goSplit
      rw [hsp]
      have hw := parseGo_flag_tokens _ hFmem [] 0 [] [] 0
      rw [List.append_nil] at hw
      rw [hw, hor]
      rfl
    · rw [if_pos hftne]
      have hsp : (goJoin ',' ((KnownOptions.filter (fun o => fl &&& o.2 > 0)).map (·.1)
            ++ [typeEq ++ ft])).splitOn ','
          = (KnownOptions.filter (fun o => fl &&& o.2 > 0)).map (·.1) ++ [typeEq ++ ft] :=
        splitOn_goJoin ',' _ _ hFcf hTtok
      unfold optionsParse goSplit
      rw [hsp]
      rw [parseGo_flag_tokens _ hFmem [typeEq ++ ft] 0 [] [] 0, hor,
        parseGo_type_token ft hft]
      rfl
  · rcases hda with h0 | ⟨d₀, rest₀, hdaeq, hd₀c, hd₀l, hrestc⟩
    · exact absurd h0 hdane
    rw [if_pos hdane]
    have hprecf : ∀ g ∈ (KnownOptions.filter (fun o => fl &&& o.2 > 0)).map (·.1)
        ++ (if ft ≠ [] then [typeEq ++ ft] else []), (',' : Char) ∉ g := by
      intro g hg
      rcases List.mem_append.mp hg with h | h
      · exact hFcf g h
      · by_cases hfe : ft = []
        · rw [if_neg (by simp [hfe])] at h
          simp at h
        · rw [if_pos hfe] at h
          rw [List.mem_singleton.mp h]
          exact hTtok
    have hdsp : (dataEq ++ da).splitOn ',' = (dataEq ++ d₀) :: rest₀ := by
      rw [hdaeq, goJoin_cons_append]
      refine List.splitOn_intercalate _ ',' ?_ (by simp)
      intro l hl
      rcases List.mem_cons.mp hl with h | h
      · rw [h]
        exact comma_not_mem_dataEq_append hd₀c
      · exact hrestc l h
    have hsplit : (goJoin ',' ((KnownOptions.filter (fun o => fl &&& o.2 > 0)).map (·.1)
          ++ ((if ft ≠ [] then [typeEq ++ ft] else []) ++ [dataEq ++ da]))).splitOn ','
        = ((KnownOptions.filter (fun o => fl &&& o.2 > 0)).map (·.1)
            ++ (if ft ≠ [] then [typeEq ++ ft] else [])) ++ (dataEq ++ d₀) :: rest₀ := by
      rw [← List.append_assoc]
      rw [splitOn_goJoin_last ',' _ _ hprecf, hdsp]
    unfold optionsParse goSplit
    rw [hsplit, List.append_assoc]
    by_cases hftne : ft = []
    · subst hftne
      rw [if_neg (by simp), List.nil_append]
      rw [parseGo_flag_tokens _ hFmem ((dataEq ++ d₀) :: rest₀) 0 [] [] 0, hor,
        parseGo_data_token d₀ rest₀ hd₀l, hdaeq]
    · rw [if_pos hftne, List.singleton_append]
      rw [parseGo_flag_tokens _ hFmem ((typeEq ++ ft) :: (dataEq ++ d₀) :: rest₀) 0 [] [] 0,
        hor, parseGo_type_token ft hft, parseGo_data_token d₀ rest₀ hd₀l, hdaeq]

lemma knownOptions_name_ne_nil : ∀ p ∈ KnownOptions, p.1 ≠ [] := by decide

lemma goJoin_ne_nil {l : List Str} (hl : l ≠ []) (hall : ∀ t ∈ l, t ≠ []) :
    goJoin ',' l ≠ [] := by
  cases l with
  | nil => exact absurd rfl hl
  | cons t rest =>
    cases rest with
    | nil => rw [goJoin_singleton]; exact hall t (by simp)
    | cons u rs =>
      rw [goJoin_cons_of_ne_nil t (u :: rs) (by simp)]
      simp

lemma filter_ne_nil_of_flags (fl : Nat) (hfl : fl &&& knownMask = fl) (hnz : fl ≠ 0) :
    KnownOptions.filter (fun o => fl &&& o.2 > 0) ≠ [] := by
  rcases Nat.ne_zero_implies_bit_true hnz with ⟨i, hbit⟩
  have hm : knownMask.testBit i = true := by
    have := congrArg (fun x => x.testBit i) hfl
    simp only [Nat.testBit_land, hbit, Bool.true_and] at this
    exact this
  rw [knownMask, testBit_listOr, List.any_eq_true] at hm
  rcases hm with ⟨p, hmem, htb⟩
  intro h0
  have hpf : p ∈ KnownOptions.filter (fun o => fl &&& o.2 > 0) := by
    refine List.mem_filter.mpr ⟨hmem, ?_⟩
    rcases knownOptions_single_bit p hmem with ⟨k, hk⟩
    rw [hk, Nat.testBit_two_pow] at htb
    have hik : k = i := by simpa using htb
    simp only [decide_eq_true_eq]
    rw [hk, hik, Nat.and_two_pow fl i, hbit]
    simp
  rw [h0] at hpf
  simp at hpf

lemma optionsSerialize_ne_nil (fl : Nat) (ft da : Str)
    (hfl : fl &&& knownMask = fl) (hndef : fl ≠ DefaultMountFlags)
    (h : ¬(fl = 0 ∧ ft = [] ∧ da = [])) :
    optionsSerialize fl ft da ≠ [] := by
  rw [optionsSerialize_eq fl ft da hndef]
  apply goJoin_ne_nil
  · by_cases hz : fl = 0
    · have hor : ft ≠ [] ∨ da ≠ [] := by
        by_contra hcon
        push_neg at hcon
        exact h ⟨hz, hcon.1, hcon.2⟩
      rcases hor with hh | hh
      · rw [if_pos hh]
        simp
      · rw [if_pos hh]
        simp
    · have hfne := filter_ne_nil_of_flags fl hfl hz
      intro h0
      rcases List.append_eq_nil.mp h0 with ⟨h1, _⟩
      exact hfne (by simpa using h1)
  · intro t ht
    rcases List.mem_append.mp ht with h1 | h1
    · rcases List.mem_map.mp h1 with ⟨p, hp, hpt⟩
      rw [← hpt]
      exact knownOptions_name_ne_nil p (List.mem_filter.mp hp).1
    · rcases List.mem_append.mp h1 with h2 | h2
      · by_cases hfe : ft = []
        · rw [if_neg (by simp [hfe])] at h2
          simp at h2
        · rw [if_pos hfe] at h2
          rw [List.mem_singleton.mp h2]
          simp [typeEq]
      · by_cases hde : da = []
        · rw [if_neg (by simp [hde])] at h2
          simp at h2
        · rw [if_pos hde] at h2
          rw [List.mem_singleton.mp h2]
          simp [dataEq]

/-- The mount-level round trip: a parse-produced `MountFlags` whose flag
word is not in one of the two degenerate elision situations re-parses from
its `String()` form to itself. -/
lemma NewMountFlags_mountString (mf : MountFlags) (hinv : mountParseInv mf)
    (hdef : mf.Flags = DefaultMountFlags → mf.Fstype = [] ∧ mf.Data = [])
    (hzero : mf.Flags = 0 → mf.Fstype ≠ [] ∨ mf.Data ≠ []) :
    NewMountFlags (mountString mf) = some mf := by
  obtain ⟨S, T, FL, FT, DA⟩ := mf
  rcases hinv with ⟨hsc, htc, hfl, hft, hda⟩
  by_cases hdflt : FL = DefaultMountFlags
  · rcases hdef hdflt with ⟨hfte, hdae⟩
    subst hdflt
    subst hfte
    subst hdae
    have hms : mountString ⟨S, T, DefaultMountFlags, [], []⟩ = S ++ ':' :: T := by
      simp [mountString, optionsSerialize, goJoin, List.intercalate]
    rw [hms]
    have hsp : (S ++ ':' :: T).splitOn ':' = [S, T] := by
      rw [splitOn_append_cons ':' S T hsc, splitOn_single htc]
    unfold NewMountFlags goSplitN3
    rw [hsp]
  · have hne : optionsSerialize FL FT DA ≠ [] :=
      optionsSerialize_ne_nil FL FT DA hfl hdflt
        (fun hcon => by rcases hzero hcon.1 with hh | hh
                        · exact hh hcon.2.1
                        · exact hh hcon.2.2)
    have hp := optionsParse_serialize FL FT DA hfl hft hda hdflt hne
    have hms : mountString ⟨S, T, FL, FT, DA⟩
        = S ++ ':' :: (T ++ ':' :: optionsSerialize FL FT DA) := by
      simp [mountString, hne]
    rw [hms]
    rcases hos : (optionsSerialize FL FT DA).splitOn ':' with _ | ⟨c, rest⟩
    · exact absurd hos (splitOn_ne_nil ':' _)
    have hsp : (S ++ ':' :: (T ++ ':' :: optionsSerialize FL FT DA)).splitOn ':'
        = S :: T :: c :: rest := by
      rw [splitOn_append_cons ':' S _ hsc, splitOn_append_cons ':' T _ htc, hos]
    have hjoin : goJoin ':' (c :: rest) = optionsSerialize FL FT DA := by
      rw [← hos]
      exact goJoin_splitOn ':' _
    unfold NewMountFlags goSplitN3
    rw [hsp]
    simp only [hjoin, hp]
    simp

/-- C2 (amended): the parse/serialize round trip of mount specs holds —
yielding the identical `MountFlags`, with no realpath canonicalization —
except in the two flag-elision situations: a parsed flag word equal to
`MS_BIND|MS_REC|MS_PRIVATE` with a non-empty fstype or data (`String()`
elides the flag tokens, so the re-parse yields flag word 0), and a parsed
flag word 0 with empty fstype and data (`String()` emits no options at all,
so the re-parse yields the default flag word). -/
theorem c2_mount_spec_roundtrip (s : Str) (mf : MountFlags)
    (hparse : NewMountFlags s = some mf)
    (hdef : mf.Flags = DefaultMountFlags → mf.Fstype = [] ∧ mf.Data = [])
    (hzero : mf.Flags = 0 → mf.Fstype ≠ [] ∨ mf.Data ≠ []) :
    NewMountFlags (mountString mf) = some mf :=
  NewMountFlags_mountString mf (NewMountFlags_inv hparse) hdef hzero

/-- C2 counterexample: `"a:b:bind,recursive,private,type=tmpfs"` parses to
the default flag word with fstype `tmpfs`; its serialization elides the flag
tokens and re-parses with flag word 0 — not an equivalent `MountFlags`. -/
theorem c2_counterexample :
    NewMountFlags "a:b:bind,recursive,private,type=tmpfs".toList
      = some ⟨"a".toList, "b".toList, DefaultMountFlags, "tmpfs".toList, []⟩
    ∧ mountString ⟨"a".toList, "b".toList, DefaultMountFlags, "tmpfs".toList, []⟩
      = "a:b:type=tmpfs".toList
    ∧ NewMountFlags "a:b:type=tmpfs".toList
      = some ⟨"a".toList, "b".toList, 0, "tmpfs".toList, []⟩
    ∧ (0 : Nat) ≠ DefaultMountFlags := by decide

/-- C2 witness: concrete round trip for `"a:b:ro,bind"`. -/
theorem c2_mount_spec_roundtrip_witness :
    NewMountFlags (mountString ⟨"a".toList, "b".toList, MS_RDONLY ||| MS_BIND, [], []⟩)
      = some ⟨"a".toList, "b".toList, MS_RDONLY ||| MS_BIND, [], []⟩ :=
  c2_mount_spec_roundtrip "a:b:ro,bind".toList
    ⟨"a".toList, "b".toList, MS_RDONLY ||| MS_BIND, [], []⟩
    (by decide) (by decide) (by decide)

/-! ### Decimal and integer formatting/parsing (`strconv.Itoa`,
`strconv.Atoi`, `strconv.ParseUint(s, 0, 32)`). `Atoi`/`ParseUint` are
modelled without 64-bit overflow rejection and without Go's optional
digit-separating underscores; neither affects any statement below. -/

def digitChar : Nat → Char
  | 0 => '0' | 1 => '1' | 2 => '2' | 3 => '3' | 4 => '4'
  | 5 => '5' | 6 => '6' | 7 => '7' | 8 => '8' | _ => '9'

def natToDecAux : Nat → Nat → Str
  | 0, _ => []
  | fuel + 1, n =>
    if n < 10 then [digitChar n]
    else natToDecAux fuel (n / 10) ++ [digitChar (n % 10)]

/-- Decimal representation of a natural number (`strconv.Itoa` for `n ≥ 0`,
`fmt.Sprint` for unsigned values). -/
def natToDec (n : Nat) : Str := natToDecAux (n + 1) n

/-- `strconv.Itoa`. -/
def intToDec (i : Int) : Str :=
  if i < 0 then '-' :: natToDec (Int.toNat (-i)) else natToDec i.toNat

def isDigit (c : Char) : Bool := 48 ≤ c.toNat && c.toNat ≤ 57

def digitVal (c : Char) : Nat := c.toNat - 48

def decToNat (s : Str) : Option Nat :=
  if s = [] then none
  else if s.all isDigit then some (s.foldl (fun a c => a * 10 + digitVal c) 0)
  else none

/-- `strconv.Atoi`: optional sign, decimal digits. -/
def goAtoi (s : Str) : Option Int :=
  match s with
  | [] => none
  | c :: r =>
    if c = '+' then (decToNat r).map (fun n => (n : Int))
    else if c = '-' then (decToNat r).map (fun n => -(n : Int))
    else (decToNat (c :: r)).map (fun n => (n : Int))

def hexDigitVal (c : Char) : Option Nat :=
  if isDigit c then some (digitVal c)
  else if 97 ≤ c.toNat && c.toNat ≤ 102 then some (c.toNat - 87)
  else if 65 ≤ c.toNat && c.toNat ≤ 70 then some (c.toNat - 55)
  else none

def digitInBase (b : Nat) (c : Char) : Option Nat :=
  (hexDigitVal c).bind (fun d => if d < b then some d else none)

def digitsVal (b : Nat) (s : Str) : Option Nat :=
  if s = [] then none
  else s.foldl (fun acc c => acc.bind (fun a => (digitInBase b c).map (fun d => a * b + d)))
    (some 0)

/-- `strconv.ParseUint(s, 0, 64)`: base detected from the prefix. -/
def goParseUint0 (s : Str) : Option Nat :=
  match s with
  | [] => none
  | c :: rest =>
    if c = '0' then
      match rest with
      | [] => some 0
      | d :: ds =>
        if d = 'x' ∨ d = 'X' then digitsVal 16 ds
        else if d = 'o' ∨ d = 'O' then digitsVal 8 ds
        else if d = 'b' ∨ d = 'B' then digitsVal 2 ds
        else digitsVal 8 rest
    else digitsVal 10 (c :: rest)

/-- `strconv.ParseUint(s, 0, 32)` as used by pflag's `Uint32Var`. -/
def goParseUint32 (s : Str) : Option Nat :=
  (goParseUint0 s).bind (fun n => if n < 4294967296 then some n else none)

lemma digitChar_spec : ∀ d, d < 10 →
    digitVal (digitChar d) = d ∧ isDigit (digitChar d) = true ∧ digitChar d ≠ '+'
    ∧ digitChar d ≠ '-' ∧ (d ≠ 0 → digitChar d ≠ '0') := by decide

lemma natToDecAux_spec : ∀ fuel n, n < fuel →
    natToDecAux fuel n ≠ [] ∧ (natToDecAux fuel n).all isDigit = true
    ∧ (natToDecAux fuel n).foldl (fun a c => a * 10 + digitVal c) 0 = n := by
  intro fuel
  induction fuel with
  | zero => intro n h; omega
  | succ fuel ih =>
    intro n h
    by_cases hn : n < 10
    · simp only [natToDecAux, if_pos hn]
      have hd := digitChar_spec n hn
      refine ⟨by simp, by simp [hd.2.1], by simp [hd.1]⟩
    · simp only [natToDecAux, if_neg hn]
      have hrec := ih (n / 10) (by omega)
      have hd := digitChar_spec (n % 10) (by omega)
      refine ⟨by simp, ?_, ?_⟩
      · rw [List.all_append, hrec.2.1]
        simp [hd.2.1]
      · rw [List.foldl_append, hrec.2.2]
        simp [hd.1]
        omega

lemma decToNat_natToDec (n : Nat) : decToNat (natToDec n) = some n := by
  have h := natToDecAux_spec (n + 1) n (by omega)
  unfold decToNat natToDec
  rw [if_neg (by exact h.1), if_pos h.2.1, h.2.2]

lemma natToDec_all_digits (n : Nat) : (natToDec n).all isDigit = true :=
  (natToDecAux_spec (n + 1) n (by omega)).2.1

lemma natToDec_ne_nil (n : Nat) : natToDec n ≠ [] :=
  (natToDecAux_spec (n + 1) n (by omega)).1

lemma goAtoi_digits (s : Str) (h1 : s ≠ []) (h2 : s.all isDigit = true) :
    goAtoi s = (decToNat s).map (fun n => (n : Int)) := by
  cases s with
  | nil => exact absurd rfl h1
  | cons c r =>
    have hc : isDigit c = true := by
      have := List.all_eq_true.mp h2 c (by simp)
      simpa using this
    have hcp : c ≠ '+' := by
      intro h
      rw [h] at hc
      simp [isDigit] at hc
    have hcm : c ≠ '-' := by
      intro h
      rw [h] at hc
      simp [isDigit] at hc
    simp only [goAtoi]
    rw [if_neg hcp, if_neg hcm]

lemma goAtoi_natToDec (n : Nat) : goAtoi (natToDec n) = some (n : Int) := by
  rw [goAtoi_digits (natToDec n) (natToDec_ne_nil n) (natToDec_all_digits n),
    decToNat_natToDec]
  rfl

/-- `Atoi ∘ Itoa` is the identity on the integers. -/
lemma goAtoi_intToDec (i : Int) : goAtoi (intToDec i) = some i := by
  unfold intToDec
  by_cases hi : i < 0
  · rw [if_pos hi]
    have h1 : natToDec (Int.toNat (-i)) ≠ [] := natToDec_ne_nil _
    rcases hd : natToDec (Int.toNat (-i)) with _ | ⟨c, r⟩
    · exact absurd hd h1
    simp only [goAtoi]
    rw [if_pos trivial, ← hd, decToNat_natToDec]
    simp
    omega
  · rw [if_neg hi, goAtoi_natToDec]
    simp
    omega

lemma intToDec_ne_nil (i : Int) : intToDec i ≠ [] := by
  unfold intToDec
  split
  · simp
  · exact natToDec_ne_nil _

lemma digitsVal_digits (s : Str) (h1 : s ≠ []) (h2 : s.all isDigit = true) :
    digitsVal 10 s = some (s.foldl (fun a c => a * 10 + digitVal c) 0) := by
  unfold digitsVal
  rw [if_neg h1]
  have main : ∀ (l : Str) (a : Nat), l.all isDigit = true →
      l.foldl (fun acc c => acc.bind (fun a => (digitInBase 10 c).map (fun d => a * 10 + d)))
        (some a) = some (l.foldl (fun a c => a * 10 + digitVal c) a) := by
    intro l
    induction l with
    | nil => intro a _; rfl
    | cons c r ih =>
      intro a hall
      have hc : isDigit c = true := by
        have := List.all_eq_true.mp hall c (by simp)
        simpa using this
      have hr : r.all isDigit = true := by
        rw [List.all_cons, Bool.and_eq_true] at hall
        exact hall.2
      have hdb : digitInBase 10 c = some (digitVal c) := by
        unfold digitInBase hexDigitVal
        rw [if_pos hc]
        have : digitVal c < 10 := by
          simp [isDigit] at hc
          simp [digitVal]
          omega
        simp [this]
      rw [List.foldl_cons, List.foldl_cons]
      have hstep : ((some a).bind fun a =>
          Option.map (fun d => a * 10 + d) (digitInBase 10 c)) = some (a * 10 + digitVal c) := by
        simp [hdb]
      rw [hstep]
      exact ih (a * 10 + digitVal c) hr
  exact main s 0 h2

lemma natToDec_head_ne_zero (n : Nat) (hn : n ≠ 0) :
    ∀ c r, natToDec n = c :: r → c ≠ '0' := by
  have main : ∀ fuel m, m < fuel → m ≠ 0 →
      ∀ c r, natToDecAux fuel m = c :: r → c ≠ '0' := by
    intro fuel
    induction fuel with
    | zero => intro m h; omega
    | succ fuel ih =>
      intro m hm hm0 c r hcr
      by_cases hsm : m < 10
      · rw [natToDecAux, if_pos hsm] at hcr
        have := (digitChar_spec m hsm).2.2.2.2 hm0
        simp at hcr
        rw [← hcr.1]
        exact this
      · rw [natToDecAux, if_neg hsm] at hcr
        have hne := (natToDecAux_spec fuel (m / 10) (by omega)).1
        rcases haux : natToDecAux fuel (m / 10) with _ | ⟨c', r'⟩
        · exact absurd haux hne
        · rw [haux] at hcr
          simp at hcr
          rw [← hcr.1]
          exact ih (m / 10) (by omega) (by omega) c' r' haux
  exact main (n + 1) n (by omega) hn

/-- `ParseUint(·, 0, 32) ∘ Sprint` is the identity below `2^32`. -/
lemma goParseUint32_natToDec (p : Nat) (hp : p < 4294967296) :
    goParseUint32 (natToDec p) = some p := by
  by_cases hz : p = 0
  · subst hz
    decide
  · rcases hd : natToDec p with _ | ⟨c, r⟩
    · exact absurd hd (natToDec_ne_nil p)
    have hc0 : c ≠ '0' := natToDec_head_ne_zero p hz c r hd
    unfold goParseUint32
    simp only [goParseUint0]
    rw [if_neg hc0]
    rw [← hd, digitsVal_digits (natToDec p) (natToDec_ne_nil p) (natToDec_all_digits p)]
    have hfold := (natToDecAux_spec (p + 1) p (by omega)).2.2
    unfold natToDec
    rw [hfold]
    simp [hp]

/-! ### The flag parser (`Flags.Parse` on top of spf13/pflag) and `Flags.Args`

The pflag engine (an external library) is embedded with its documented
behavior for the flag set registered by `Flags.Parse`: long flags
`--name value` / `--name=value`, implicit `true` for booleans, interspersed
positional arguments, `--` terminator, errors on unknown flags and on
shorthands (none are registered). `time.Duration` formatting/parsing
(`String`/`ParseDuration`, used for `--wait-timeout`) is abstracted as a
codec; its documented round-trip property is a hypothesis where needed. -/

/-- Codec abstracting Go's `time.Duration.String` / `time.ParseDuration`. -/
structure DurCodec where
  print : Int → Str
  parse : Str → Option Int

/-- The user database consulted by `user.Lookup`: name to the `Uid`/`Gid`
strings of the entry. -/
def UserDB := Str → Option (Str × Str)

/-- The group database consulted by `user.LookupGroup`. -/
def GroupDB := Str → Option Str

/-- `ParseOrLookupUser`: a numeric non-negative uid resolves to `(uid, 0)`
without touching the database; otherwise the entry's uid/gid strings are
`Atoi`'d. -/
def ParseOrLookupUser (udb : UserDB) (uid : Str) : Option (Int × Int) :=
  match goAtoi uid with
  | some i => if 0 ≤ i then some (i, 0) else none
  | none =>
    match udb uid with
    | none => none
    | some (us, gs) =>
      match goAtoi us, goAtoi gs with
      | some ud, some gd => some (ud, gd)
      | _, _ => none

/-- `ParseOrLookupGroup`. -/
def ParseOrLookupGroup (gdb : GroupDB) (gid : Str) : Option Int :=
  match goAtoi gid with
  | some i => if 0 ≤ i then some i else none
  | none =>
    match gdb gid with
    | none => none
    | some gs => goAtoi gs

/-- Mutable state of the registered flag set during a pflag parse. -/
structure PState where
  root : Bool
  fail : Bool
  proc : Bool
  wait : Bool
  waitTerm : Bool
  propagate : Bool
  hostname : Str
  chdir : Str
  faketree : Str
  perms : Nat
  timeout : Int
  uidS : Str
  gidS : Str
  mounts : List Str
deriving DecidableEq

def boolFlagNames : List Str :=
  ["root".toList, "fail".toList, "proc".toList, "wait".toList,
   "wait-term".toList, "propagate".toList]

def valueFlagNames : List Str :=
  ["hostname".toList, "chdir".toList, "faketree".toList, "perms".toList,
   "wait-timeout".toList, "uid".toList, "gid".toList, "mount".toList]

def isBoolFlag (n : Str) : Bool := boolFlagNames.contains n

def isKnownFlag (n : Str) : Bool := boolFlagNames.contains n || valueFlagNames.contains n

/-- `strconv.ParseBool`. -/
def goParseBool (v : Str) : Option Bool :=
  if ["1".toList, "t".toList, "T".toList, "true".toList, "TRUE".toList,
      "True".toList].contains v then some true
  else if ["0".toList, "f".toList, "F".toList, "false".toList, "FALSE".toList,
      "False".toList].contains v then some false
  else none

/-- Apply one parsed `--name value` pair to the flag state (pflag `Set`). -/
def setFlag (dc : DurCodec) (st : PState) (n v : Str) : Option PState :=
  if n = "root".toList then (goParseBool v).map (fun b => { st with root := b })
  else if n = "fail".toList then (goParseBool v).map (fun b => { st with fail := b })
  else if n = "proc".toList then (goParseBool v).map (fun b => { st with proc := b })
  else if n = "wait".toList then (goParseBool v).map (fun b => { st with wait := b })
  else if n = "wait-term".toList then (goParseBool v).map (fun b => { st with waitTerm := b })
  else if n = "propagate".toList then (goParseBool v).map (fun b => { st with propagate := b })
  else if n = "hostname".toList then some { st with hostname := v }
  else if n = "chdir".toList then some { st with chdir := v }
  else if n = "faketree".toList then some { st with faketree := v }
  else if n = "perms".toList then (goParseUint32 v).map (fun p => { st with perms := p })
  else if n = "wait-timeout".toList then (dc.parse v).map (fun t => { st with timeout := t })
  else if n = "uid".toList then some { st with uidS := v }
  else if n = "gid".toList then some { st with gidS := v }
  else if n = "mount".toList then some { st with mounts := st.mounts ++ [v] }
  else none

/-- Split a long-flag body at the first `=` (pflag `SplitN(name, "=", 2)`). -/
def breakEq : Str → Str × Option Str
  | [] => ([], none)
  | c :: r =>
    if c = '=' then ([], some r)
    else
      let p := breakEq r
      (c :: p.1, p.2)

/-- The pflag argument loop (`parseArgs`) for the registered flag set:
interspersed positionals, `--` terminator, `--name[=value]` long flags,
no registered shorthands. Returns the final state and positional args. -/
def pflagGo (dc : DurCodec) (st : PState) (acc : List Str) : List Str → Option (PState × List Str)
  | [] => some (st, acc)
  | s :: rest =>
    if s.length = 0 ∨ s.head? ≠ some '-' ∨ s.length = 1 then
      pflagGo dc st (acc ++ [s]) rest
    else if s = ['-', '-'] then some (st, acc ++ rest)
    else if s.take 2 = ['-', '-'] then
      if (s.drop 2).head? = some '-' ∨ (s.drop 2).head? = some '=' then none
      else
        match breakEq (s.drop 2) with
        | (name, val?) =>
          if isKnownFlag name = false then none
          else
            match val? with
            | some v => (setFlag dc st name v).bind (fun st' => pflagGo dc st' acc rest)
            | none =>
              if isBoolFlag name then
                (setFlag dc st name "true".toList).bind (fun st' => pflagGo dc st' acc rest)
              else
                match rest with
                | [] => none
                | v :: rest' => (setFlag dc st name v).bind (fun st' => pflagGo dc st' acc rest')
    else none

/-- The initial flag state: every registered flag takes its default from the
`Flags` value, uid/gid as their decimal strings (`strconv.Itoa`). -/
def initialPState (d : Flags) : PState :=
  ⟨d.Root, d.Fail, d.Proc, d.Wait, d.TermOnWait, d.Propagate,
   d.Hostname, d.Chdir, d.Faketree, d.Perms, d.Timeout,
   intToDec d.Uid, intToDec d.Gid, []⟩

/-- Parse every `--mount` value with `NewMountFlags`, failing on the first
error. -/
def mountsParse : List Str → Option (List MountFlags)
  | [] => some []
  | m :: rest => (NewMountFlags m).bind (fun mf => (mountsParse rest).map (fun l => mf :: l))

/-- Rebuild a `Flags` value from the final flag state. -/
def flagsOf (st : PState) (uid gid : Int) (ms : List MountFlags) : Flags :=
  ⟨st.fail, st.root, st.hostname, st.chdir, st.faketree, st.perms, st.proc,
   st.wait, st.propagate, st.waitTerm, st.timeout, uid, gid, ms⟩

/-- `Flags.Parse`: run pflag over argv, then parse the mount specs, then
resolve uid/gid — `--root` forces both to 0; otherwise a non-empty uid
string goes through `ParseOrLookupUser` and a non-empty gid string through
`ParseOrLookupGroup`. -/
def flagsParse (dc : DurCodec) (udb : UserDB) (gdb : GroupDB) (d : Flags)
    (argv : List Str) : Option (Flags × List Str) :=
  match pflagGo dc (initialPState d) [] argv with
  | none => none
  | some (st, left) =>
    match mountsParse st.mounts with
    | none => none
    | some ms =>
      if st.root then some (flagsOf st 0 0 (d.Mount ++ ms), left)
      else
        match (if st.uidS = [] then some (d.Uid, d.Gid)
               else ParseOrLookupUser udb st.uidS) with
        | none => none
        | some (u, g) =>
          match (if st.gidS = [] then some g else ParseOrLookupGroup gdb st.gidS) with
          | none => none
          | some g' => some (flagsOf st u g' (d.Mount ++ ms), left)

/-- `Flags.Args`: re-serialize the configuration with normalized values. -/
def flagsArgs (dc : DurCodec) (fl : Flags) : List Str :=
  ["--uid".toList, intToDec fl.Uid, "--gid".toList, intToDec fl.Gid]
  ++ (if fl.Root then ["--root".toList] else [])
  ++ (if fl.Fail then ["--fail".toList] else [])
  ++ (if fl.Hostname ≠ [] then ["--hostname".toList, fl.Hostname] else [])
  ++ (if fl.Chdir ≠ [] then ["--chdir".toList, fl.Chdir] else [])
  ++ (if fl.Faketree ≠ [] then ["--faketree".toList, fl.Faketree] else [])
  ++ (if fl.Perms ≠ kDefaultPerms then ["--perms".toList, natToDec fl.Perms] else [])
  ++ (if fl.Proc then ["--proc".toList] else [])
  ++ (if fl.Wait = false then ["--wait=false".toList] else [])
  ++ (if fl.Propagate = false then ["--propagate=false".toList] else [])
  ++ (if fl.TermOnWait = false then ["--wait-term=false".toList] else [])
  ++ (if fl.Timeout ≠ kDefaultTimeout then ["--wait-timeout".toList, dc.print fl.Timeout]
      else [])
  ++ fl.Mount.flatMap (fun m => ["--mount".toList, mountString m])

/-- `NewFlags`: the default configuration (caller uid/gid, resolved self
path; realpath failure leaves `Faketree` empty). -/
def NewFlags (uid gid : Int) (ftpath : Str) : Flags :=
  ⟨false, false, [], [], ftpath, kDefaultPerms, false, true, true, true,
   kDefaultTimeout, uid, gid, []⟩

/-- Test codec: decimal nanosecond count (stands in for a concrete duration
codec in ground instances). -/
def dcTest : DurCodec := ⟨intToDec, goAtoi⟩

example : flagsParse dcTest (fun _ => none) (fun _ => none) (NewFlags 1000 1000 "/ft".toList)
    ["--uid".toList, "55".toList, "--".toList, "cmd".toList]
    = some (⟨false, false, [], [], "/ft".toList, kDefaultPerms, false, true, true, true,
        kDefaultTimeout, 55, 1000, []⟩, ["cmd".toList]) := by decide

example : flagsParse dcTest (fun _ => none) (fun _ => none) (NewFlags 7 9 [])
    ["--root".toList, "--mount".toList, "/a:/b".toList]
    = some (⟨false, true, [], [], [], kDefaultPerms, false, true, true, true,
        kDefaultTimeout, 0, 0, [⟨"/a".toList, "/b".toList, DefaultMountFlags, [], []⟩]⟩,
        []) := by decide

/-- C10 (amended): `ParseOrLookupUser` on a numeric non-negative string
returns `(n, 0)` with no user-database lookup (the result is independent of
the database). In `Flags.Parse`, the final `Gid` comes from the `--gid`
string through `ParseOrLookupGroup` whenever `--root` is unset and that
string is non-empty; with `--root` set the final `Gid` is 0 (not taken from
the `--gid` flag — see the counterexample). -/
lemma flagsParse_inversion (dc : DurCodec) (udb : UserDB) (gdb : GroupDB) (d : Flags)
    (argv : List Str) (C : Flags) (left : List Str)
    (h : flagsParse dc udb gdb d argv = some (C, left)) :
    ∃ st ms, pflagGo dc (initialPState d) [] argv = some (st, left)
      ∧ mountsParse st.mounts = some ms
      ∧ ((st.root = true ∧ C = flagsOf st 0 0 (d.Mount ++ ms))
        ∨ (st.root = false ∧ ∃ u g g2,
            (if st.uidS = [] then some (d.Uid, d.Gid) else ParseOrLookupUser udb st.uidS)
              = some (u, g)
            ∧ (if st.gidS = [] then some g else ParseOrLookupGroup gdb st.gidS) = some g2
            ∧ C = flagsOf st u g2 (d.Mount ++ ms))) := by
  unfold flagsParse at h
  split at h
  · cases h
  · rename_i st left0 hpf
    split at h
    · cases h
    · rename_i ms hms
      split at h
      · rename_i hroot
        rcases Option.some.injEq .. ▸ h with h'
        have hCl : C = flagsOf st 0 0 (d.Mount ++ ms) ∧ left0 = left := by
          have := h
          simp at this
          exact ⟨this.1.symm, this.2⟩
        refine ⟨st, ms, ?_, hms, Or.inl ⟨hroot, hCl.1⟩⟩
        rw [← hCl.2]
        exact hpf
      · rename_i hroot
        split at h
        · cases h
        · rename_i u g hu
          split at h
          · cases h
          · rename_i g2 hg
            have hCl : C = flagsOf st u g2 (d.Mount ++ ms) ∧ left0 = left := by
              have := h
              simp at this
              exact ⟨this.1.symm, this.2⟩
            refine ⟨st, ms, ?_, hms, Or.inr ⟨by simpa using hroot, u, g, g2, hu, hg, hCl.1⟩⟩
            rw [← hCl.2]
            exact hpf

/-- C10 (amended): `ParseOrLookupUser` on a numeric non-negative string
returns `(n, 0)` with no user-database lookup (the result is independent of
the database). In `Flags.Parse`, the final `Gid` comes from the `--gid`
string through `ParseOrLookupGroup` whenever `--root` is unset and that
string is non-empty; with `--root` set the final `Gid` is 0 (not taken from
the `--gid` flag — see the counterexample). -/
theorem c10_numeric_uid_no_lookup (udb₁ udb₂ : UserDB) (s : Str) (n : Int)
    (hn : goAtoi s = some n) (hnn : 0 ≤ n) :
    (ParseOrLookupUser udb₁ s = some (n, 0)
      ∧ ParseOrLookupUser udb₁ s = ParseOrLookupUser udb₂ s)
    ∧ ∀ (dc : DurCodec) (udb : UserDB) (gdb : GroupDB) (d : Flags) (argv : List Str)
        (C : Flags) (left left' : List Str) (st : PState),
        pflagGo dc (initialPState d) [] argv = some (st, left') →
        flagsParse dc udb gdb d argv = some (C, left) →
        (st.root = true → C.Gid = 0)
        ∧ (st.root = false → st.gidS ≠ [] →
            ParseOrLookupGroup gdb st.gidS = some C.Gid) := by
  constructor
  · have hval : ∀ udb : UserDB, ParseOrLookupUser udb s = some (n, 0) := by
      intro udb
      unfold ParseOrLookupUser
      rw [hn]
      simp [hnn]
    exact ⟨hval udb₁, by rw [hval udb₁, hval udb₂]⟩
  · intro dc udb gdb d argv C left left' st hpf hfp
    rcases flagsParse_inversion dc udb gdb d argv C left hfp
      with ⟨st₀, ms, hpf₀, hms, hcase⟩
    have hst : st₀ = st := by
      rw [hpf₀] at hpf
      exact congrArg Prod.fst (Option.some.injEq .. ▸ hpf)
    subst hst
    rcases hcase with ⟨hroot, hC⟩ | ⟨hroot, u, g, g2, hu, hg, hC⟩
    · constructor
      · intro _
        rw [hC]
        rfl
      · intro h
        rw [h] at hroot
        cases hroot
    · constructor
      · intro h
        rw [h] at hroot
        cases hroot
      · intro _ hgs
        rw [if_neg hgs] at hg
        rw [hg, hC]
        rfl

/-- C10 counterexample: with `--root --gid 5` the final `Gid` is 0, although
the `--gid` flag value `"5"` is non-empty and resolves to 5 — the final
`Gid` is not always taken from the `--gid` flag. -/
theorem c10_counterexample :
    flagsParse dcTest (fun _ => none) (fun _ => none) (NewFlags 1000 1000 [])
        ["--root".toList, "--gid".toList, "5".toList]
      = some (⟨false, true, [], [], [], kDefaultPerms, false, true, true, true,
          kDefaultTimeout, 0, 0, []⟩, [])
    ∧ ParseOrLookupGroup (fun _ => none) "5".toList = some 5
    ∧ ((0 : Int) ≠ 5) := by decide

/-- C10 witness: the numeric branch at `"104"` with two different user
databases. -/
theorem c10_numeric_uid_no_lookup_witness :
    goAtoi "104".toList = some 104
    ∧ ParseOrLookupUser (fun _ => none) "104".toList = some (104, 0)
    ∧ ParseOrLookupUser (fun _ => none) "104".toList
        = ParseOrLookupUser (fun _ => some ("1".toList, "2".toList)) "104".toList :=
  ⟨by decide,
   (c10_numeric_uid_no_lookup (fun _ => none) (fun _ => some ("1".toList, "2".toList))
      "104".toList 104 (by decide) (by decide)).1.1,
   (c10_numeric_uid_no_lookup (fun _ => none) (fun _ => some ("1".toList, "2".toList))
      "104".toList 104 (by decide) (by decide)).1.2⟩

/-! ### Stepping the pflag loop over the tokens emitted by `Flags.Args` -/

lemma step_uid (dc : DurCodec) (st : PState) (acc : List Str) (v : Str) (rest : List Str) :
    pflagGo dc st acc ("--uid".toList :: v :: rest)
      = pflagGo dc { st with uidS := v } acc rest := rfl

lemma step_gid (dc : DurCodec) (st : PState) (acc : List Str) (v : Str) (rest : List Str) :
    pflagGo dc st acc ("--gid".toList :: v :: rest)
      = pflagGo dc { st with gidS := v } acc rest := rfl

lemma step_hostname (dc : DurCodec) (st : PState) (acc : List Str) (v : Str)
    (rest : List Str) :
    pflagGo dc st acc ("--hostname".toList :: v :: rest)
      = pflagGo dc { st with hostname := v } acc rest := rfl

lemma step_chdir (dc : DurCodec) (st : PState) (acc : List Str) (v : Str)
    (rest : List Str) :
    pflagGo dc st acc ("--chdir".toList :: v :: rest)
      = pflagGo dc { st with chdir := v } acc rest := rfl

lemma step_faketree (dc : DurCodec) (st : PState) (acc : List Str) (v : Str)
    (rest : List Str) :
    pflagGo dc st acc ("--faketree".toList :: v :: rest)
      = pflagGo dc { st with faketree := v } acc rest := rfl

lemma step_mount (dc : DurCodec) (st : PState) (acc : List Str) (v : Str)
    (rest : List Str) :
    pflagGo dc st acc ("--mount".toList :: v :: rest)
      = pflagGo dc { st with mounts := st.mounts ++ [v] } acc rest := rfl

lemma step_perms (dc : DurCodec) (st : PState) (acc : List Str) (v : Str)
    (rest : List Str) :
    pflagGo dc st acc ("--perms".toList :: v :: rest)
      = ((goParseUint32 v).map (fun p => { st with perms := p })).bind
          (fun st' => pflagGo dc st' acc rest) := rfl

lemma step_timeout (dc : DurCodec) (st : PState) (acc : List Str) (v : Str)
    (rest : List Str) :
    pflagGo dc st acc ("--wait-timeout".toList :: v :: rest)
      = ((dc.parse v).map (fun t => { st with timeout := t })).bind
          (fun st' => pflagGo dc st' acc rest) := rfl

lemma step_root (dc : DurCodec) (st : PState) (acc rest : List Str) :
    pflagGo dc st acc ("--root".toList :: rest)
      = pflagGo dc { st with root := true } acc rest := by
  cases rest <;> rfl

lemma step_fail (dc : DurCodec) (st : PState) (acc rest : List Str) :
    pflagGo dc st acc ("--fail".toList :: rest)
      = pflagGo dc { st with fail := true } acc rest := by
  cases rest <;> rfl

lemma step_proc (dc : DurCodec) (st : PState) (acc rest : List Str) :
    pflagGo dc st acc ("--proc".toList :: rest)
      = pflagGo dc { st with proc := true } acc rest := by
  cases rest <;> rfl

lemma step_wait_off (dc : DurCodec) (st : PState) (acc rest : List Str) :
    pflagGo dc st acc ("--wait=false".toList :: rest)
      = pflagGo dc { st with wait := false } acc rest := by
  cases rest <;> rfl

lemma step_propagate_off (dc : DurCodec) (st : PState) (acc rest : List Str) :
    pflagGo dc st acc ("--propagate=false".toList :: rest)
      = pflagGo dc { st with propagate := false } acc rest := by
  cases rest <;> rfl

lemma step_waitterm_off (dc : DurCodec) (st : PState) (acc rest : List Str) :
    pflagGo dc st acc ("--wait-term=false".toList :: rest)
      = pflagGo dc { st with waitTerm := false } acc rest := by
  cases rest <;> rfl

lemma seg_root (dc : DurCodec) (st : PState) (acc rest : List Str) (b : Bool)
    (h : st.root = false) :
    pflagGo dc st acc ((if b then ["--root".toList] else []) ++ rest)
      = pflagGo dc { st with root := b } acc rest := by
  cases b
  · rw [if_neg (by simp), List.nil_append, show ({ st with root := false } : PState) = st
      from by rw [← h]]
  · rw [if_pos rfl, List.singleton_append, step_root]

lemma seg_fail (dc : DurCodec) (st : PState) (acc rest : List Str) (b : Bool)
    (h : st.fail = false) :
    pflagGo dc st acc ((if b then ["--fail".toList] else []) ++ rest)
      = pflagGo dc { st with fail := b } acc rest := by
  cases b
  · rw [if_neg (by simp), List.nil_append, show ({ st with fail := false } : PState) = st
      from by rw [← h]]
  · rw [if_pos rfl, List.singleton_append, step_fail]

lemma seg_proc (dc : DurCodec) (st : PState) (acc rest : List Str) (b : Bool)
    (h : st.proc = false) :
    pflagGo dc st acc ((if b then ["--proc".toList] else []) ++ rest)
      = pflagGo dc { st with proc := b } acc rest := by
  cases b
  · rw [if_neg (by simp), List.nil_append, show ({ st with proc := false } : PState) = st
      from by rw [← h]]
  · rw [if_pos rfl, List.singleton_append, step_proc]

lemma seg_wait (dc : DurCodec) (st : PState) (acc rest : List Str) (b : Bool)
    (h : st.wait = true) :
    pflagGo dc st acc ((if b = false then ["--wait=false".toList] else []) ++ rest)
      = pflagGo dc { st with wait := b } acc rest := by
  cases b
  · rw [if_pos rfl, List.singleton_append, step_wait_off]
  · rw [if_neg (by simp), List.nil_append, show ({ st with wait := true } : PState) = st
      from by rw [← h]]

lemma seg_propagate (dc : DurCodec) (st : PState) (acc rest : List Str) (b : Bool)
    (h : st.propagate = true) :
    pflagGo dc st acc ((if b = false then ["--propagate=false".toList] else []) ++ rest)
      = pflagGo dc { st with propagate := b } acc rest := by
  cases b
  · rw [if_pos rfl, List.singleton_append, step_propagate_off]
  · rw [if_neg (by simp), List.nil_append,
      show ({ st with propagate := true } : PState) = st from by rw [← h]]

lemma seg_waitterm (dc : DurCodec) (st : PState) (acc rest : List Str) (b : Bool)
    (h : st.waitTerm = true) :
    pflagGo dc st acc ((if b = false then ["--wait-term=false".toList] else []) ++ rest)
      = pflagGo dc { st with waitTerm := b } acc rest := by
  cases b
  · rw [if_pos rfl, List.singleton_append, step_waitterm_off]
  · rw [if_neg (by simp), List.nil_append,
      show ({ st with waitTerm := true } : PState) = st from by rw [← h]]

lemma seg_hostname (dc : DurCodec) (st : PState) (acc rest : List Str) (v : Str)
    (h : st.hostname = []) :
    pflagGo dc st acc ((if v ≠ [] then ["--hostname".toList, v] else []) ++ rest)
      = pflagGo dc { st with hostname := v } acc rest := by
  by_cases hv : v = []
  · rw [if_neg (by simp [hv]), List.nil_append, hv,
      show ({ st with hostname := [] } : PState) = st from by rw [← h]]
  · rw [if_pos hv, List.cons_append, List.singleton_append, step_hostname]

lemma seg_chdir (dc : DurCodec) (st : PState) (acc rest : List Str) (v : Str)
    (h : st.chdir = []) :
    pflagGo dc st acc ((if v ≠ [] then ["--chdir".toList, v] else []) ++ rest)
      = pflagGo dc { st with chdir := v } acc rest := by
  by_cases hv : v = []
  · rw [if_neg (by simp [hv]), List.nil_append, hv,
      show ({ st with chdir := [] } : PState) = st from by rw [← h]]
  · rw [if_pos hv, List.cons_append, List.singleton_append, step_chdir]

lemma seg_faketree (dc : DurCodec) (st : PState) (acc rest : List Str) (v : Str)
    (h : v = [] → st.faketree = []) :
    pflagGo dc st acc ((if v ≠ [] then ["--faketree".toList, v] else []) ++ rest)
      = pflagGo dc { st with faketree := v } acc rest := by
  by_cases hv : v = []
  · rw [if_neg (by simp [hv]), List.nil_append, hv,
      show ({ st with faketree := [] } : PState) = st from by rw [← h hv]]
  · rw [if_pos hv, List.cons_append, List.singleton_append, step_faketree]

lemma seg_perms (dc : DurCodec) (st : PState) (acc rest : List Str) (p : Nat)
    (hbound : p < 4294967296) (h : st.perms = kDefaultPerms) :
    pflagGo dc st acc ((if p ≠ kDefaultPerms then ["--perms".toList, natToDec p] else [])
        ++ rest)
      = pflagGo dc { st with perms := p } acc rest := by
  by_cases hp : p = kDefaultPerms
  · rw [if_neg (by simp [hp]), List.nil_append, hp,
      show ({ st with perms := kDefaultPerms } : PState) = st from by rw [← h]]
  · rw [if_pos hp, List.cons_append, List.singleton_append, step_perms,
      goParseUint32_natToDec p hbound]
    rfl

lemma seg_timeout (dc : DurCodec) (st : PState) (acc rest : List Str) (t : Int)
    (hdc : ∀ x, dc.parse (dc.print x) = some x) (h : st.timeout = kDefaultTimeout) :
    pflagGo dc st acc ((if t ≠ kDefaultTimeout then ["--wait-timeout".toList, dc.print t]
        else []) ++ rest)
      = pflagGo dc { st with timeout := t } acc rest := by
  by_cases ht : t = kDefaultTimeout
  · rw [if_neg (by simp [ht]), List.nil_append, ht,
      show ({ st with timeout := kDefaultTimeout } : PState) = st from by rw [← h]]
  · rw [if_pos ht, List.cons_append, List.singleton_append, step_timeout, hdc t]
    rfl

lemma seg_mounts (dc : DurCodec) (acc : List Str) :
    ∀ (ml : List MountFlags) (st : PState),
    pflagGo dc st acc (ml.flatMap (fun m => ["--mount".toList, mountString m]))
      = some ({ st with mounts := st.mounts ++ ml.map mountString }, acc) := by
  intro ml
  induction ml with
  | nil =>
    intro st
    show some (st, acc) = _
    rw [show ({ st with mounts := st.mounts ++ List.map mountString [] } : PState) = st
      from by simp]
  | cons m ml ih =>
    intro st
    rw [List.flatMap_cons, List.cons_append, List.singleton_append, step_mount, ih]
    simp [List.append_assoc]

example : NewMountFlags "/a:/b".toList =
    some ⟨"/a".toList, "/b".toList, DefaultMountFlags, [], []⟩ := by decide

example : NewMountFlags "/a:/b:ro,bind".toList =
    some ⟨"/a".toList, "/b".toList, MS_RDONLY ||| MS_BIND, [], []⟩ := by decide

example : NewMountFlags ":/t:type=tmpfs,data=size=1m".toList =
    some ⟨[], "/t".toList, 0, "tmpfs".toList, "size=1m".toList⟩ := by decide

example : mountString ⟨"/a".toList, "/b".toList, DefaultMountFlags, [], []⟩ =
    "/a:/b".toList := by decide

/-- A parse-produced mount list whose members avoid the two flag-elision
situations re-parses from its serialized form to itself. -/
lemma mountsParse_roundtrip :
    ∀ (l : List Str) (ms : List MountFlags),
    mountsParse l = some ms →
    (∀ m ∈ ms, (m.Flags = DefaultMountFlags → m.Fstype = [] ∧ m.Data = [])
      ∧ (m.Flags = 0 → m.Fstype ≠ [] ∨ m.Data ≠ [])) →
    mountsParse (ms.map mountString) = some ms := by
  intro l
  induction l with
  | nil =>
    intro ms h _
    simp only [mountsParse, Option.some.injEq] at h
    rw [← h]
    rfl
  | cons s rest ih =>
    intro ms h hm
    simp only [mountsParse] at h
    rcases hns : NewMountFlags s with _ | mf <;> rw [hns] at h
    · simp at h
    · rcases hrest : mountsParse rest with _ | l' <;> rw [hrest] at h
      · simp at h
      · simp only [Option.bind_eq_bind, Option.some_bind, Option.map_some,
          Option.map_some', Option.some.injEq] at h
        subst h
        rw [List.map_cons]
        show (NewMountFlags (mountString mf)).bind _ = _
        rw [NewMountFlags_mountString mf (NewMountFlags_inv hns)
              (hm mf (List.mem_cons_self mf l')).1
              (hm mf (List.mem_cons_self mf l')).2,
            ih l' hrest (fun m hmem => hm m (List.mem_cons_of_mem _ hmem))]
        rfl

/-- Running the pflag loop on `Flags.Args fl` from the `NewFlags` defaults
reaches the flag state whose every field carries the corresponding field of
`fl`, with no positional arguments. -/
lemma pflagGo_flagsArgs (dc : DurCodec) (C : Flags) (u g : Int) (ftp : Str)
    (hdc : ∀ x, dc.parse (dc.print x) = some x)
    (hft : C.Faketree = [] → ftp = [])
    (hperms : C.Perms < 4294967296) :
    pflagGo dc (initialPState (NewFlags u g ftp)) [] (flagsArgs dc C)
      = some (⟨C.Root, C.Fail, C.Proc, C.Wait, C.TermOnWait, C.Propagate,
          C.Hostname, C.Chdir, C.Faketree, C.Perms, C.Timeout,
          intToDec C.Uid, intToDec C.Gid, C.Mount.map mountString⟩, []) := by
  show pflagGo dc ⟨false, false, false, true, true, true, [], [], ftp,
      kDefaultPerms, kDefaultTimeout, intToDec u, intToDec g, []⟩ [] (flagsArgs dc C) = _
  unfold flagsArgs
  simp only [List.append_assoc, List.cons_append, List.nil_append]
  rw [step_uid, step_gid,
      seg_root dc _ _ _ _ rfl,
      seg_fail dc _ _ _ _ rfl,
      seg_hostname dc _ _ _ _ rfl,
      seg_chdir dc _ _ _ _ rfl,
      seg_faketree dc _ _ _ _ hft,
      seg_perms dc _ _ _ _ hperms rfl,
      seg_proc dc _ _ _ _ rfl,
      seg_wait dc _ _ _ _ rfl,
      seg_propagate dc _ _ _ _ rfl,
      seg_waitterm dc _ _ _ _ rfl,
      seg_timeout dc _ _ _ _ hdc rfl,
      seg_mounts]
  rfl

/-- Re-parsing `Flags.Args C` from the `NewFlags` defaults yields exactly
`C` with no positionals, given: the duration codec round-trips, an empty
faketree path only under an empty default, non-negative resolved ids, a
32-bit perms word, root implying ids 0, and a mount list that re-parses to
itself. -/
lemma flagsParse_flagsArgs (dc : DurCodec) (udb : UserDB) (gdb : GroupDB)
    (u g : Int) (ftp : Str) (C : Flags)
    (hdc : ∀ x, dc.parse (dc.print x) = some x)
    (hft : C.Faketree = [] → ftp = [])
    (hu : 0 ≤ C.Uid) (hg : 0 ≤ C.Gid)
    (hperms : C.Perms < 4294967296)
    (hroot0 : C.Root = true → C.Uid = 0 ∧ C.Gid = 0)
    (hrt : mountsParse (C.Mount.map mountString) = some C.Mount) :
    flagsParse dc udb gdb (NewFlags u g ftp) (flagsArgs dc C) = some (C, []) := by
  have hwalk := pflagGo_flagsArgs dc C u g ftp hdc hft hperms
  obtain ⟨F, R, H, Ch, Ft, P, Pr, W, Pg, TW, T, U, G, M⟩ := C
  simp only [flagsParse, hwalk]
  simp only [hrt]
  cases R with
  | true =>
    rcases hroot0 rfl with ⟨hU, hG⟩
    subst hU
    subst hG
    rfl
  | false =>
    rw [if_neg (show ¬(intToDec U = []) from intToDec_ne_nil U)]
    show (match ParseOrLookupUser udb (intToDec U) with
      | none => none
      | some (u', g') =>
        match (if intToDec G = [] then some g' else ParseOrLookupGroup gdb (intToDec G)) with
        | none => none
        | some g2 => some (flagsOf _ u' g2 ((NewFlags u g ftp).Mount ++ M), [])) = _
    have hpu : ParseOrLookupUser udb (intToDec U) = some (U, 0) := by
      unfold ParseOrLookupUser
      rw [goAtoi_intToDec]
      exact if_pos hu
    have hpg : ParseOrLookupGroup gdb (intToDec G) = some G := by
      unfold ParseOrLookupGroup
      rw [goAtoi_intToDec]
      exact if_pos hg
    rw [hpu]
    show (match (if intToDec G = [] then some (0 : Int)
        else ParseOrLookupGroup gdb (intToDec G)) with
      | none => none
      | some g2 => some (flagsOf _ U g2 ((NewFlags u g ftp).Mount ++ M), [])) = _
    rw [if_neg (show ¬(intToDec G = []) from intToDec_ne_nil G), hpg]
    rfl

/-- C5 (amended): for every argv accepted by `Flags.Parse` from the
`NewFlags` defaults producing configuration `C`, re-parsing the emitted
`C.Args()` with the same defaults reproduces `C` exactly (usernames
replaced by numeric ids, positionals dropped) — provided the duration codec
round-trips, the resolved uid/gid are non-negative, an empty `Faketree`
only arises under an empty self-path default, and no parsed mount spec is
in one of the two flag-elision situations of the mount round trip. -/
theorem c5_args_roundtrip (dc : DurCodec) (udb : UserDB) (gdb : GroupDB)
    (u g : Int) (ftp : Str) (argv : List Str) (C : Flags) (left : List Str)
    (hdc : ∀ x, dc.parse (dc.print x) = some x)
    (hparse : flagsParse dc udb gdb (NewFlags u g ftp) argv = some (C, left))
    (hft : C.Faketree = [] → ftp = [])
    (hu : 0 ≤ C.Uid) (hg : 0 ≤ C.Gid)
    (hperms : C.Perms < 4294967296)
    (hmounts : ∀ m ∈ C.Mount,
        (m.Flags = DefaultMountFlags → m.Fstype = [] ∧ m.Data = [])
        ∧ (m.Flags = 0 → m.Fstype ≠ [] ∨ m.Data ≠ [])) :
    flagsParse dc udb gdb (NewFlags u g ftp) (flagsArgs dc C) = some (C, []) := by
  obtain ⟨st, ms, hpf, hms, hcase⟩ :=
    flagsParse_inversion dc udb gdb (NewFlags u g ftp) argv C left hparse
  have hCM : C.Mount = ms := by
    rcases hcase with ⟨_, hC⟩ | ⟨_, u', g', g2, _, _, hC⟩ <;> rw [hC] <;> rfl
  have hrt : mountsParse (C.Mount.map mountString) = some C.Mount := by
    rw [hCM]
    exact mountsParse_roundtrip st.mounts ms hms (hCM ▸ hmounts)
  have hroot0 : C.Root = true → C.Uid = 0 ∧ C.Gid = 0 := by
    rcases hcase with ⟨hroot, hC⟩ | ⟨hroot, u', g', g2, _, _, hC⟩
    · intro _
      rw [hC]
      exact ⟨rfl, rfl⟩
    · intro hcon
      rw [hC] at hcon
      rw [show (flagsOf st u' g2 ((NewFlags u g ftp).Mount ++ ms)).Root = st.root from rfl,
        hroot] at hcon
      cases hcon
  exact flagsParse_flagsArgs dc udb gdb u g ftp C hdc hft hu hg hperms hroot0 hrt

/-- C5 witness: a concrete accepted argv (`--fail --uid 12 --hostname h
--mount a:b:ro cmd`) whose emitted `Args()` re-parses to the same
configuration. -/
theorem c5_args_roundtrip_witness :
    flagsParse dcTest (fun _ => none) (fun _ => none) (NewFlags 7 9 "/ft".toList)
      (flagsArgs dcTest ⟨true, false, "h".toList, [], "/ft".toList, kDefaultPerms,
        false, true, true, true, kDefaultTimeout, 12, 9,
        [⟨"a".toList, "b".toList, MS_RDONLY, [], []⟩]⟩)
    = some (⟨true, false, "h".toList, [], "/ft".toList, kDefaultPerms,
        false, true, true, true, kDefaultTimeout, 12, 9,
        [⟨"a".toList, "b".toList, MS_RDONLY, [], []⟩]⟩, []) :=
  c5_args_roundtrip dcTest (fun _ => none) (fun _ => none) 7 9 "/ft".toList
    ["--fail".toList, "--uid".toList, "12".toList, "--hostname".toList, "h".toList,
     "--mount".toList, "a:b:ro".toList, "cmd".toList]
    ⟨true, false, "h".toList, [], "/ft".toList, kDefaultPerms,
     false, true, true, true, kDefaultTimeout, 12, 9,
     [⟨"a".toList, "b".toList, MS_RDONLY, [], []⟩]⟩
    ["cmd".toList]
    (fun x => goAtoi_intToDec x) (by decide) (by decide) (by decide) (by decide)
    (by decide) (by decide)

/-- C5 counterexample: the argv `--mount a:b:bind,recursive,private,type=tmpfs`
is accepted and produces a configuration whose `Args()` re-parses to a
configuration with a different mount flag word (0 instead of
`MS_BIND|MS_REC|MS_PRIVATE`), so the round trip fails on elided mount
flags. -/
theorem c5_counterexample :
    flagsParse dcTest (fun _ => none) (fun _ => none) (NewFlags 7 9 "/ft".toList)
      ["--mount".toList, "a:b:bind,recursive,private,type=tmpfs".toList]
    = some (⟨false, false, [], [], "/ft".toList, kDefaultPerms,
        false, true, true, true, kDefaultTimeout, 7, 9,
        [⟨"a".toList, "b".toList, DefaultMountFlags, "tmpfs".toList, []⟩]⟩, [])
    ∧ flagsParse dcTest (fun _ => none) (fun _ => none) (NewFlags 7 9 "/ft".toList)
      (flagsArgs dcTest ⟨false, false, [], [], "/ft".toList, kDefaultPerms,
        false, true, true, true, kDefaultTimeout, 7, 9,
        [⟨"a".toList, "b".toList, DefaultMountFlags, "tmpfs".toList, []⟩]⟩)
    = some (⟨false, false, [], [], "/ft".toList, kDefaultPerms,
        false, true, true, true, kDefaultTimeout, 7, 9,
        [⟨"a".toList, "b".toList, 0, "tmpfs".toList, []⟩]⟩, [])
    ∧ (0 : Nat) ≠ DefaultMountFlags := by
  refine ⟨by decide, by decide, by decide⟩

end Faketree
